import Mathlib

/-!
# Verification of the mock HTTP server and mock file system

A shallow embedding, in Lean 4, of the core of the `node-unittest-utils`
test-double toolkit:

* the in-memory HTTP server (`src/lib/http-server.js`): URL-keyed resource
  store, request pipeline (global callback → per-URL callback → built-in verb
  handler), request accounting, byte-range GET, chunked-upload POST, and
  subtree MOVE;
* the in-memory file system (`MockFs`): a `(parentPath, name)`-keyed entity
  table with descriptor-based open/close, subtree remove and subtree rename.

JavaScript strings are modelled as `List Char` (`Str`).  Buffers are also
`List Char` (one list element per byte; all inputs of interest are ASCII).
External collaborators are modelled by small executable functions:

* Node's legacy `url.parse` is modelled by `parseUrl` on the URL shapes the
  library works with (`proto://host/path`, path-only strings, with query and
  fragment stripped); a missing component is `none`, matching the `null`
  fields that `url.parse` produces (string interpolation of `null` yields
  the text `"null"`, see `optStr`);
* the `mime` package's `getType` is modelled by `mimeGetType` (extension
  lookup, `none` when unknown);
* Node `Buffer`s: `Buffer.alloc n` is `List.replicate n '\x00'`, and
  `buf.copy(target, targetStart, sourceStart, sourceEnd)` is `bufCopy`
  (copying is truncated at the end of the target, as `Buffer.copy` does).

The server's callbacks (the global request callback and the per-URL
registered callbacks) are modelled by the data they hand to their completion
function (`GlobalCbResult`, `CbResult`); the default global callback, which
completes with no arguments, is the `none` state.  All claims treated here
involve only the default global callback or constant per-URL callbacks, so
this is faithful for every run examined.

Request/response processing is sequential in the source (deferred via
`process.nextTick`, never interleaved), so `getResponse` is modelled as a
state-passing function.  Its result is `ServerState × Option (Except Str Response)`:
`some (.error e)` is a completion with a truthy `err` argument,
`some (.ok r)` a completion with a response, and `none` means the completion
callback is never invoked at all (which the source does in one branch of the
byte-range handler, where a constructed 400 response is discarded).
-/

deriving instance DecidableEq for Except

namespace MockHttp

/-- JavaScript strings (and byte buffers) as lists of characters. -/
abbrev Str := List Char

/-- Shorthand turning a Lean string literal into the model's string type. -/
def str (s : String) : Str := s.data

/-- `Buffer.alloc n`: a zero-filled buffer. -/
def bufAlloc (n : Nat) : Str := List.replicate n '\x00'

/-- `src.copy(dest, destStart)`: copy `src` into `dest` starting at
`destStart`, truncated at the end of `dest` (Node `Buffer.copy` semantics);
`dest` keeps its length. -/
def bufCopy (dest : Str) (destStart : Nat) (src : Str) : Str :=
  (List.range dest.length).map fun i =>
    if destStart ≤ i ∧ i < destStart + src.length then
      src.getD (i - destStart) '\x00'
    else
      dest.getD i '\x00'

/-- Index of the last occurrence of `c` in `s` (JS `lastIndexOf`). -/
def lastIndexOf (c : Char) (s : Str) : Option Nat :=
  match s.reverse.findIdx? (· = c) with
  | some j => some (s.length - 1 - j)
  | none => none

/-- `url.substr(0, url.lastIndexOf('/'))`: everything before the last `/`;
when there is no `/`, `lastIndexOf` is `-1` and `substr(0, -1)` is the empty
string. -/
def parentOf (u : Str) : Str :=
  match lastIndexOf '/' u with
  | some i => u.take i
  | none => []

/-- Split `s` at the first occurrence of the substring `"://"`, returning the
parts before and after it. -/
def breakOnProtoSep (s : Str) : Option (Str × Str) :=
  match s with
  | [] => none
  | c :: rest =>
    if c = ':' ∧ rest.take 2 = ['/', '/'] then some ([], rest.drop 2)
    else (breakOnProtoSep rest).map fun p => (c :: p.1, p.2)

/-- The components of a parsed URL that the library reads
(`protocol`, `host`, `pathname`); `none` models the `null` fields of Node's
legacy `url.parse`. -/
structure UrlParts where
  protocol : Option Str
  host : Option Str
  pathname : Option Str
deriving Repr, DecidableEq

/-- Model of Node's legacy `url.parse` on the URL shapes used by the library:
an absolute `proto://host/path` URL, or a path-only string (as in a path-only
destination header).  Query (`?...`) and fragment (`#...`) are not part of
`pathname`.  An absent path parses to `pathname = none` (legacy `url.parse`
yields `null`). -/
def parseUrl (u : Str) : UrlParts :=
  match breakOnProtoSep u with
  | some (proto, rest) =>
    let host := rest.takeWhile fun c => ¬(c = '/' ∨ c = '?' ∨ c = '#')
    let after := rest.drop host.length
    let path := after.takeWhile fun c => ¬(c = '?' ∨ c = '#')
    { protocol := some (proto ++ [':']), host := some host,
      pathname := if path = [] then none else some path }
  | none =>
    let path := u.takeWhile fun c => ¬(c = '?' ∨ c = '#')
    { protocol := none, host := none,
      pathname := if path = [] then none else some path }

/-- JS template interpolation of a possibly-`null` string. -/
def optStr (o : Option Str) : Str := o.getD (str "null")

/-- `_getUrlDataKey`: the canonical resource key
`` `${parsed.protocol}//${parsed.host}${parsed.pathname}` ``. -/
def urlKey (u : Str) : Str :=
  let p := parseUrl u
  optStr p.protocol ++ ['/', '/'] ++ optStr p.host ++ optStr p.pathname

/-- Model of `mime.getType`: media type from the file extension of the URL,
`none` (JS `null`) when unknown. -/
def mimeGetType (u : Str) : Option Str :=
  let seg := (u.reverse.takeWhile fun c => ¬(c = '/' ∨ c = '.')).reverse
  let hasDot := (u.reverse.takeWhile (· ≠ '/')).contains '.'
  if ¬hasDot then none
  else if seg = str "txt" then some (str "text/plain")
  else if seg = str "jpg" ∨ seg = str "jpeg" then some (str "image/jpeg")
  else if seg = str "png" then some (str "image/png")
  else if seg = str "html" then some (str "text/html")
  else if seg = str "json" then some (str "application/json")
  else none

/-! ## Association lists

JS objects used as dictionaries (`urlData`, `registeredUrls`,
`requestedUrls`, `chunkData`) are modelled as association lists in key
insertion order; assignment to an existing key replaces the value in place,
assignment to a fresh key appends, `delete` removes, all matching JS object
semantics for string keys. -/

/-- Dictionary lookup. -/
def lookupA [DecidableEq κ] (l : List (κ × α)) (k : κ) : Option α :=
  (l.find? fun p => p.1 = k).map (·.2)

/-- Dictionary assignment: replace in place (keys are unique, as in a JS
object), or append when fresh. -/
def updateA [DecidableEq κ] : List (κ × α) → κ → α → List (κ × α)
  | [], k, v => [(k, v)]
  | p :: l, k, v => if p.1 = k then (k, v) :: l else p :: updateA l k v

/-- Dictionary `delete`. -/
def removeA [DecidableEq κ] (l : List (κ × α)) (k : κ) : List (κ × α) :=
  l.filter fun p => ¬p.1 = k

/-! ## Request and response data -/

/-- The request headers the server reads (`headers.range` for GET,
`headers['X-Destination']` for MOVE). -/
structure ReqHeaders where
  range : Option Str := none
  xDestination : Option Str := none
deriving Repr, DecidableEq

/-- The `form` metadata of a chunked-upload POST
(`file@Offset`, `chunk@Length`, `file@Length`).  A `0` value models both the
JS number `0` and an absent field: every read of these fields is either a
truthiness test (where both are falsy) or happens only after the
corresponding truthiness test. -/
structure FormData where
  fileOffset : Int := 0
  chunkLength : Int := 0
  fileLength : Int := 0
deriving Repr, DecidableEq

/-- Request options, as submitted with a request. -/
structure ReqOptions where
  url : Str := []
  method : Option Str := none
  headers : ReqHeaders := {}
  form : Option FormData := none
  ignoreCount : Bool := false
deriving Repr, DecidableEq

/-- The response headers the claims read.  (Per-URL callbacks in the tests
also set custom headers; those are irrelevant to every claim and omitted.) -/
structure RespHeaders where
  contentType : Option Str := none
  contentLength : Option Nat := none
deriving Repr, DecidableEq

/-- Response options as accepted by `MockIncomingMessage`. -/
structure RespOptions where
  statusCode : Option Int := none
  headers : RespHeaders := {}
deriving Repr, DecidableEq

/-- A `MockIncomingMessage`: the response delivered to the caller.  `body` is
the buffer handed to the constructor (`none` models `null`). -/
structure Response where
  statusCode : Int
  headers : RespHeaders
  body : Option Str
deriving Repr, DecidableEq

/-- `new MockIncomingMessage(responseOptions, body)`: `statusCode` defaults
to `501`. -/
def mkIncomingMessage (ro : RespOptions) (body : Option Str) : Response :=
  { statusCode := ro.statusCode.getD 501, headers := ro.headers, body := body }

/-- `_createResponse(statusCode, headers, body, fallbackBody)`: the body used
is `body || fallbackBody`.  The `body` argument is always `null` or a Buffer
at the source's call sites (a Buffer is truthy even when empty), so the JS
truthiness test is `Option.isSome`. -/
def createResponse (statusCode : Int) (headers : RespHeaders)
    (body : Option Str) (fallback : Option Str) : Response :=
  mkIncomingMessage { statusCode := some statusCode, headers := headers }
    (match body with | some b => some b | none => fallback)

/-- The values a per-URL registered callback passes to its completion
function `(err, responseOptions, responseBody)`.  Callbacks are modelled by
these completion values (every callback relevant to a claim is constant). -/
structure CbResult where
  err : Option Str := none
  responseOptions : RespOptions := {}
  responseBody : Option Str := none
deriving Repr, DecidableEq

/-- The values the global request callback passes to its completion function
`(err, requestOptions, responseOptions, responseBody)`.  The default global
callback installed by `resetState` completes with no arguments, which is the
`none` case of the `Option GlobalCbResult` field below. -/
structure GlobalCbResult where
  err : Option Str := none
  requestOptions : Option ReqOptions := none
  responseOptions : Option RespOptions := none
  responseBody : Option Str := none
deriving Repr, DecidableEq

/-- What `setUrlData` receives in its `responseOptions` slot.  The source is
untyped: the ordinary call sites pass a response-options object (`opts`), but
`moveUrl`'s per-descendant call drops one argument so a response *body*
Buffer lands in this slot (`buf`). -/
inductive StoredOpts where
  | opts (o : RespOptions)
  | buf (b : Str)
deriving Repr, DecidableEq

/-- An entry of the resource store `urlData`.  (The source's `setUrlData`
also takes a `requestOptions` argument, but never stores it: the entry is
`{responseOptions, responseBody}`.) -/
structure UrlEntry where
  responseOptions : StoredOpts
  responseBody : Str
deriving Repr, DecidableEq

/-- An entry of the chunked-upload assembly state `chunkData`. -/
structure ChunkEntry where
  content : Str
  currOffset : Int
deriving Repr, DecidableEq

/-- The state of an `HttpServer`.  `registeredUrls` is flattened from the
source's method-then-key nesting to `(method, key)` pairs.
`requestCallback = none` is the default pass-through global callback. -/
structure ServerState where
  registeredUrls : List ((Str × Str) × CbResult) := []
  urlData : List (Str × UrlEntry) := []
  requestCallback : Option GlobalCbResult := none
  requestedUrls : List ((Str × Str) × List ReqOptions) := []
  chunkData : List (Str × ChunkEntry) := []
deriving Repr, DecidableEq

/-! ## Resource-store operations -/

/-- `registerUrl(method, url, callback)`. -/
def registerUrl (s : ServerState) (method url : Str) (cb : CbResult) : ServerState :=
  { s with registeredUrls := updateA s.registeredUrls (method, urlKey url) cb }

/-- `unregisterUrl(method, url)`. -/
def unregisterUrl (s : ServerState) (method url : Str) : ServerState :=
  { s with registeredUrls := removeA s.registeredUrls (method, urlKey url) }

/-- `setUrlData(url, requestOptions, responseOptions, responseBody)`.  The
`requestOptions` parameter is dead in the source (never stored), so the model
omits it; JS call sites are mapped by dropping their second argument.  A
falsy body (`''`/absent, modelled `none`) normalizes to an empty buffer. -/
def setUrlData (s : ServerState) (url : Str) (responseOptions : StoredOpts)
    (responseBody : Option Str) : ServerState :=
  let entry : UrlEntry := ⟨responseOptions, responseBody.getD []⟩
  { s with urlData := updateA s.urlData (urlKey url) entry }

/-- `urlExists(url)`. -/
def urlExists (s : ServerState) (url : Str) : Bool :=
  (lookupA s.urlData (urlKey url)).isSome

/-- `getUrlResponseOptions(url)` (`none` models the JS `null` result). -/
def getUrlResponseOptions (s : ServerState) (url : Str) : Option StoredOpts :=
  (lookupA s.urlData (urlKey url)).map (·.responseOptions)

/-- `getUrlResponseBody(url)` (`none` models the JS `null` result). -/
def getUrlResponseBody (s : ServerState) (url : Str) : Option Str :=
  (lookupA s.urlData (urlKey url)).map (·.responseBody)

/-- `deleteUrlData(url)`. -/
def deleteUrlData (s : ServerState) (url : Str) : ServerState :=
  { s with urlData := removeA s.urlData (urlKey url) }

/-- `moveUrl`'s `_isChildUrl(parent, child)`: `child.startsWith(parent + '/')`. -/
def isChildUrl (parent child : Str) : Bool :=
  (parent ++ ['/']).isPrefixOf child

/-- `moveUrl`'s `_getNewUrl(oldParent, newParent, child)`. -/
def getNewUrl (oldParent newParent child : Str) : Str :=
  newParent ++ child.drop oldParent.length

/-- `moveUrl(sourceUrl, targetUrl)`: relocate the source entry, then every
stored entry and registered callback whose key is a path-descendant of
`sourceUrl`.  The per-descendant `setUrlData` call in the source passes only
three arguments, so the descendant's stored body lands in the
`responseOptions` slot and its new `responseBody` is the default empty
buffer. -/
def moveUrl (s : ServerState) (sourceUrl targetUrl : Str) : ServerState :=
  if urlExists s sourceUrl then
    let s1 := setUrlData s targetUrl
      ((getUrlResponseOptions s sourceUrl).getD (.opts {}))
      (getUrlResponseBody s sourceUrl)
    let s2 := deleteUrlData s1 sourceUrl
    let dataKeys := s2.urlData.map (·.1)
    let s3 := dataKeys.foldl (fun st url =>
      if isChildUrl sourceUrl url then
        let st' := setUrlData st (getNewUrl sourceUrl targetUrl url)
          (.buf ((getUrlResponseBody st url).getD [])) none
        deleteUrlData st' url
      else st) s2
    let regKeys := s3.registeredUrls.map (·.1)
    regKeys.foldl (fun st mk =>
      if isChildUrl sourceUrl mk.2 then
        match lookupA st.registeredUrls mk with
        | some cb => unregisterUrl (registerUrl st mk.1 (getNewUrl sourceUrl targetUrl mk.2) cb) mk.1 mk.2
        | none => st
      else st) s3
  else s

/-- `HttpServer.getDestinationUrl(options)`: resolve the MOVE destination
from the `X-Destination` header onto the source URL's scheme and host.
Errors model the exceptions the source throws (they are caught by the MOVE
handler and turned into a 400). -/
def getDestinationUrl (options : ReqOptions) : Except Str Str :=
  match options.headers.xDestination with
  | none => .error (str "TypeError: url must be a string")
  | some dest =>
    let parsedSource := parseUrl options.url
    let parsedDest := parseUrl dest
    match parsedDest.pathname with
    | none => .error (str "destination path must be specified")
    | some p => .ok (optStr parsedSource.protocol ++ ['/', '/'] ++ optStr parsedSource.host ++ p)

/-! ## The request pipeline -/

/-- Decimal parse of a nonempty all-digit string. -/
def parseDigits (l : Str) : Option Nat :=
  if l ≠ [] ∧ l.all Char.isDigit then
    some (l.foldl (fun n c => n * 10 + (c.toNat - '0'.toNat)) 0)
  else none

/-- The range-header regex `^bytes=([0-9]+)-([0-9]+)$`. -/
def parseRange (r : Str) : Option (Nat × Nat) :=
  if (str "bytes=").isPrefixOf r then
    match (r.drop 6).splitOn '-' with
    | [a, b] =>
      match parseDigits a, parseDigits b with
      | some x, some y => some (x, y)
      | _, _ => none
    | _ => none
  else none

/-- `_getGetResponse`: the built-in GET/HEAD handler.  Pure in the server
state.  Returns `none` when the handler never invokes its callback: in the
source's out-of-bounds-range branch the constructed 400 response is discarded
(`_createResponse(400, ...)` without `callback`/`return`), so no response is
ever delivered.  The `includeBody` parameter is declared (and documented) by
the source but never read: HEAD responses carry the body exactly as GET
responses do.  The source's `startByte < 0 || endByte < 0` checks are
vacuous (the regex admits only digits) and disappear in the `Nat` model. -/
def getGetResponse (s : ServerState) (url : Str) (headers : ReqHeaders)
    (responseBody : Option Str) (includeBody : Bool) : Option (Except Str Response) :=
  if urlExists s url then
    let range : Option (Option (Nat × Nat)) :=
      match headers.range with
      | some r => some (parseRange r)
      | none => none
    match range with
    | some none =>
      some (.ok (createResponse 400 {} responseBody (some (str "unsupported range header"))))
    | other =>
      let startEnd : Option (Nat × Nat) := other.bind id
      let urlContent :=
        match responseBody with
        | some b => b
        | none => (getUrlResponseBody s url).getD []
      match startEnd with
      | some (startByte, endByte) =>
        if endByte ≠ 0 then
          if startByte ≥ endByte ∨ endByte + 1 ≥ urlContent.length then
            none
          else
            let partialBuffer := (urlContent.drop startByte).take (endByte - startByte + 1)
            some (.ok (createResponse 206
              { contentType := mimeGetType url, contentLength := some partialBuffer.length }
              (some partialBuffer) none))
        else
          some (.ok (createResponse 200
            { contentType := mimeGetType url, contentLength := some urlContent.length }
            (some urlContent) none))
      | none =>
        some (.ok (createResponse 200
          { contentType := mimeGetType url, contentLength := some urlContent.length }
          (some urlContent) none))
  else
    some (.ok (createResponse 404 {} none none))

/-- The response-only dispatch (per-URL callback, then built-in) for a
request that cannot change server state.  Used to model the synthetic GET
issued by `_urlExists`: a GET/HEAD built-in is pure, and if a global-callback
override rewrites the synthetic GET into a state-changing verb the source
re-enters its own existence check forever (every nested GET is rewritten
again), which is modelled as `none` (no completion is ever delivered). -/
def synthDispatch (s : ServerState) (ro : ReqOptions) (respBody : Option Str) :
    Option (Except Str Response) :=
  let methodKey := ro.method.getD (str "undefined")
  match lookupA s.registeredUrls (methodKey, urlKey ro.url) with
  | some cb =>
    some (match cb.err with
      | some e => .error e
      | none => .ok (mkIncomingMessage cb.responseOptions cb.responseBody))
  | none =>
    if methodKey = str "GET" ∨ methodKey = str "HEAD" then
      getGetResponse s ro.url ro.headers respBody (methodKey = str "GET")
    else if methodKey = str "DELETE" ∨ methodKey = str "POST" ∨
        methodKey = str "PUT" ∨ methodKey = str "MOVE" then
      none
    else
      some (.ok (mkIncomingMessage {} none))

/-- The synthetic GET `this.getResponse({url, ignoreCount: true}, '', ...)`
issued by `_urlExists`.  It runs the full pipeline (global callback, per-URL
callback, built-in GET) but never touches state: counting is skipped via
`ignoreCount` and the GET built-in is pure
(`getResponse_on_synthetic_options` below proves this model agrees with
`getResponse` itself). -/
def runSyntheticGet (s : ServerState) (u : Str) : Option (Except Str Response) :=
  let opts : ReqOptions := { url := u, method := some (str "GET"), ignoreCount := true }
  let g := s.requestCallback.getD {}
  let requestOptions := g.requestOptions.getD opts
  match g.err with
  | some e => some (.error e)
  | none =>
    match g.responseOptions with
    | some ro => some (.ok (mkIncomingMessage ro g.responseBody))
    | none => synthDispatch s requestOptions g.responseBody

/-- `_urlExists(url, callback)`: existence via the synthetic GET; a 200
against a URL with no store entry is a consistency violation surfaced as a
hard error. -/
def urlExistsM (s : ServerState) (u : Str) : Option (Except Str Bool) :=
  match runSyntheticGet s u with
  | none => none
  | some (.error e) => some (.error e)
  | some (.ok res) =>
    if res.statusCode = 200 ∧ ¬urlExists s u then
      some (.error (str "not supported: cannot perform operations on a registered url"))
    else
      some (.ok (res.statusCode == 200))

/-- The outcome of a verb handler: the new server state, plus the completion
(`none` when the completion callback is never invoked). -/
abbrev HandlerResult := ServerState × Option (Except Str Response)

/-- `_getDeleteResponse`. -/
def getDeleteResponse (s : ServerState) (url : Str) (respBody : Option Str) : HandlerResult :=
  match urlExistsM s url with
  | none => (s, none)
  | some (.error e) => (s, some (.error e))
  | some (.ok true) =>
    (deleteUrlData s url,
     some (.ok (createResponse 200 {} respBody (some (str "path deleted")))))
  | some (.ok false) =>
    (s, some (.ok (createResponse 404 {} respBody
      (some (str "path to delete not found: " ++ url)))))

/-- `_getPostResponse`'s local `_getUrlExists`: the parent (the URL with the
last path segment removed) implicitly exists when its parsed pathname is
absent or `/` (posting to the root is always possible); otherwise the full
existence check runs against the parent. -/
def postParentCheck (s : ServerState) (url : Str) : Option (Except Str Bool) :=
  let parsedParent := parseUrl (parentOf url)
  if parsedParent.pathname = none ∨ parsedParent.pathname = some ['/'] then
    some (.ok true)
  else
    urlExistsM s (parentOf url)

/-- `_getPostResponse`: parent-existence check, conflict check, then either
chunked-upload assembly or whole-body creation.  In the chunked branch the
source copies the chunk at the *cumulative* `currOffset`
(`currChunk.copy(content, currOffset)`); `fileOffset` is used only for
validation, and a falsy (0/absent) `fileOffset` defaults to `currOffset`. -/
def getPostResponse (s : ServerState) (options : ReqOptions)
    (respBody : Option Str) (requestBody : Str) : HandlerResult :=
  let url := options.url
  match postParentCheck s url with
  | none => (s, none)
  | some (.error e) => (s, some (.error e))
  | some (.ok false) =>
    (s, some (.ok (createResponse 404 {} respBody (some (str "parent not found")))))
  | some (.ok true) =>
    match urlExistsM s url with
    | none => (s, none)
    | some (.error e) => (s, some (.error e))
    | some (.ok true) =>
      (s, some (.ok (createResponse 409 {} respBody (some (str "conflict: already exists")))))
    | some (.ok false) =>
      let form := options.form.getD {}
      if form.chunkLength ≠ 0 then
        let existing := lookupA s.chunkData url
        let cd := existing.getD ⟨bufAlloc form.fileLength.toNat, 0⟩
        let s1 := if existing.isSome then s
          else { s with chunkData := updateA s.chunkData url cd }
        let fileOffset := if form.fileOffset = 0 then cd.currOffset else form.fileOffset
        if fileOffset < 0 ∨ fileOffset ≥ (cd.content.length : Int) ∨
            form.chunkLength ≠ (requestBody.length : Int) then
          (s1, some (.ok (createResponse 400 {} respBody
            (some (str "chunk information is not valid")))))
        else
          let content := bufCopy cd.content cd.currOffset.toNat requestBody
          let currOffset := cd.currOffset + form.chunkLength
          let s2 := { s1 with chunkData := updateA s1.chunkData url ⟨content, currOffset⟩ }
          let s3 :=
            if currOffset ≥ form.fileLength then
              let su := setUrlData s2 url (.opts {}) (some content)
              { su with chunkData := removeA su.chunkData url }
            else s2
          (s3, some (.ok (createResponse 200 {} respBody (some (str "chunk uploaded")))))
      else
        (setUrlData s url (.opts {}) (some requestBody),
         some (.ok (createResponse 201 {} respBody (some (str "path created")))))

/-- `_getPutResponse`. -/
def getPutResponse (s : ServerState) (options : ReqOptions)
    (respBody : Option Str) (requestBody : Str) : HandlerResult :=
  match urlExistsM s options.url with
  | none => (s, none)
  | some (.error e) => (s, some (.error e))
  | some (.ok false) =>
    (s, some (.ok (createResponse 404 {} respBody (some (str "path to update not found")))))
  | some (.ok true) =>
    (setUrlData s options.url (.opts {}) (some requestBody),
     some (.ok (createResponse 200 {} respBody (some (str "path updated")))))

/-- `_getMoveResponse`. -/
def getMoveResponse (s : ServerState) (options : ReqOptions)
    (respBody : Option Str) : HandlerResult :=
  match getDestinationUrl options with
  | .error e => (s, some (.ok (createResponse 400 {} respBody (some e))))
  | .ok destUrl =>
    match urlExistsM s options.url with
    | none => (s, none)
    | some (.error e) => (s, some (.error e))
    | some (.ok false) =>
      (s, some (.ok (createResponse 404 {} respBody (some (str "source path not found")))))
    | some (.ok true) =>
      match urlExistsM s destUrl with
      | none => (s, none)
      | some (.error e) => (s, some (.error e))
      | some (.ok true) =>
        (s, some (.ok (createResponse 409 {} respBody
          (some (str "destination path already exists")))))
      | some (.ok false) =>
        (moveUrl s options.url destUrl,
         some (.ok (createResponse 201 {} respBody (some (str "move completed")))))

/-- `getResponse(options, requestBody, callback)`: the full request
lifecycle.  The method defaults to GET; the global callback runs first and
may error, override the request options, or short-circuit with a response;
accounting happens next (under the *effective* method/URL, skipped when the
original options carry `ignoreCount`); then the per-URL callback, then the
built-in verb handler. -/
def getResponse (s : ServerState) (options : ReqOptions) (requestBody : Str) :
    ServerState × Option (Except Str Response) :=
  let opts := { options with method := some (options.method.getD (str "GET")) }
  let g := s.requestCallback.getD {}
  let requestOptions := g.requestOptions.getD opts
  let responseBody := g.responseBody
  let url := requestOptions.url
  let methodKey := requestOptions.method.getD (str "undefined")
  let s1 :=
    if opts.ignoreCount then s
    else
      let prev := (lookupA s.requestedUrls (methodKey, url)).getD []
      { s with requestedUrls := updateA s.requestedUrls (methodKey, url) (prev ++ [opts]) }
  match g.err with
  | some e => (s1, some (.error e))
  | none =>
    match g.responseOptions with
    | some ro => (s1, some (.ok (mkIncomingMessage ro responseBody)))
    | none =>
      match lookupA s1.registeredUrls (methodKey, urlKey url) with
      | some cb =>
        (s1, some (match cb.err with
          | some e => .error e
          | none => .ok (mkIncomingMessage cb.responseOptions cb.responseBody)))
      | none =>
        if methodKey = str "GET" ∨ methodKey = str "HEAD" then
          (s1, getGetResponse s1 url requestOptions.headers responseBody (methodKey = str "GET"))
        else if methodKey = str "DELETE" then
          getDeleteResponse s1 url responseBody
        else if methodKey = str "POST" then
          getPostResponse s1 requestOptions responseBody requestBody
        else if methodKey = str "PUT" then
          getPutResponse s1 requestOptions responseBody requestBody
        else if methodKey = str "MOVE" then
          getMoveResponse s1 requestOptions responseBody
        else
          (s1, some (.ok (mkIncomingMessage {} none)))

/-- `getRequestedUrlCount(method, url)`. -/
def getRequestedUrlCount (s : ServerState) (method url : Str) : Nat :=
  ((lookupA s.requestedUrls (method, url)).getD []).length

end MockHttp

/-!
## The mock file system (`MockFs`)

The lokijs collection `paths` is a list of entities in insertion order; an
entity records its parent path (`path` field), its `name`, its stats and its
content.  `$loki` ids are modelled by a counter on the file system.
`findAndUpdate` / `findAndRemove` / `updateWhere` / `removeWhere` act on all
matching documents in order, which a `List.map` / `List.filter` reproduces.
Errors thrown by the synchronous operations are `Except.error`; where the
source would crash with a JS `TypeError` (reading a property of `false`) or
`ReferenceError` (the undefined `callback` in `openSync`'s `wx` branch), the
model returns an error labelled with the exception kind.

The descendant test `_getDescendantRegex` builds the regex `^<path>/` with
only separators escaped; on paths free of regex metacharacters this is
exactly the prefix test used here (theorems about subtree operations restrict
their paths accordingly).

Of the source's stat fields, `size` and `isDir` are modelled (the four
timestamp fields are read by no operation whose behaviour any claim
mentions). -/

namespace MockFsM

open MockHttp (Str str bufAlloc bufCopy)

/-- `_normalizePathSeparators`: backslashes become the separator and a single
trailing separator is stripped (except for the root); a falsy (empty) path is
returned unchanged. -/
def normalizePath (p : Str) : Str :=
  if p = [] then []
  else
    let q := p.map fun c => if c = '\\' then '/' else c
    if q.length > 1 ∧ q.getLast? = some '/' then q.dropLast else q

/-- `_splitPath`: normalize, then Node `Path.parse` into `(dir, base)`; the
root splits to `(dir = '', name = '/')`. -/
def splitPath (p : Str) : Str × Str :=
  let p := normalizePath p
  if p = ['/'] then ([], ['/'])
  else
    let r := p.reverse
    let nameRev := r.takeWhile (· ≠ '/')
    let rest := r.drop nameRev.length
    let dir := if rest = [] then [] else if rest = ['/'] then ['/'] else (rest.drop 1).reverse
    (dir, nameRev.reverse)

/-- Node `Path.join(dir, name)` on the shapes `getFullPath` uses. -/
def joinPath (d n : Str) : Str :=
  if d = [] then n else if d = ['/'] then '/' :: n else d ++ '/' :: n

/-- The stat fields the operations read. -/
structure RawStats where
  size : Nat := 0
  isDir : Bool := false
deriving Repr, DecidableEq

/-- A document of the `paths` collection: `path` is the parent path, the full
path is `Path.join(path, name)`. -/
structure Entity where
  id : Nat
  path : Str
  name : Str
  stats : RawStats
  content : Str
deriving Repr, DecidableEq

/-- An entity's full path (`MockEntity.getFullPath`). -/
def Entity.fullPath (e : Entity) : Str := joinPath e.path e.name

/-- The mock file-system state: the entity table, the `$loki` id counter, and
the set of open descriptors. -/
structure MockFs where
  entities : List Entity := []
  nextId : Nat := 1
  openFds : List Nat := []
deriving Repr, DecidableEq

/-- All documents matching a `(path, name)` key query. -/
def findMatches (fs : MockFs) (dir name : Str) : List Entity :=
  fs.entities.filter fun e => e.path = dir ∧ e.name = name

/-- `_findEntity`: errors on more than one match, `none` for no match. -/
def findEntityKey (fs : MockFs) (dir name : Str) : Except Str (Option Entity) :=
  let m := findMatches fs dir name
  if m.length > 1 then .error (str "duplicate entity found") else .ok m.head?

/-- `_getEntity` on a path argument. -/
def getEntityByPath (fs : MockFs) (p : Str) : Except Str (Option Entity) :=
  let dn := splitPath p
  findEntityKey fs dn.1 dn.2

/-- `existsSync(path)`. -/
def existsSync (fs : MockFs) (p : Str) : Except Str Bool :=
  (getEntityByPath fs p).map (·.isSome)

/-- `_getFile` on a path: the entity must exist and be a file. -/
def getFileByPath (fs : MockFs) (p : Str) : Except Str Entity := do
  match ← getEntityByPath fs p with
  | none => .error (str "path is not a file: " ++ p)
  | some e => if e.stats.isDir then .error (str "path is not a file: " ++ p) else .ok e

/-- `_getDirectoryByPath`: reading the stats of a missing entity (`false`)
crashes in the source. -/
def getDirectoryByPath (fs : MockFs) (p : Str) : Except Str Entity := do
  match ← getEntityByPath fs p with
  | none => .error (str "TypeError: cannot read getStats of false")
  | some e =>
    if e.stats.isDir then .ok e else .error (str "path is not a directory: " ++ p)

/-- `_updateFileContent(path, content)`: write a file's content (and its
`size` stat), returning the number of updated documents.  A falsy `content`
normalizes to an empty buffer; `none` models passing no/`null` content. -/
def updateFileContent (fs : MockFs) (p : Str) (content : Option Str) :
    Except Str (MockFs × Nat) := do
  let ent ← getFileByPath fs p
  let dn := splitPath ent.fullPath
  let bufferContent := content.getD []
  let matched := findMatches fs dn.1 dn.2
  let upd : List Entity := fs.entities.map fun e =>
    if e.path = dn.1 ∧ e.name = dn.2 then
      { e with content := bufferContent, stats := { e.stats with size := bufferContent.length } }
    else e
  .ok ({ fs with entities := upd }, matched.length)

/-- `_addEntity` with `noCreateParents` (no `mkdirp` step): duplicate and
missing-parent checks, then a lokijs insert, then the content update for a
truthy content. -/
def insertEntityRaw (fs : MockFs) (path : Str) (isDir : Bool) (content : Str) :
    Except Str (MockFs × Nat) := do
  let dn := splitPath path
  let exists_ ← existsSync fs path
  let parentExists ← existsSync fs dn.1
  if exists_ then
    .error (str "path to create already exists: " ++ path)
  else if dn.1 ≠ [] ∧ ¬parentExists then
    .error (str "parent of path to create does not exist: " ++ path)
  else
    let ent : Entity :=
      { id := fs.nextId, path := dn.1, name := dn.2,
        stats := { size := 0, isDir := isDir }, content := [] }
    let fs1 : MockFs :=
      { fs with entities := fs.entities ++ [ent], nextId := fs.nextId + 1 }
    if content ≠ [] then
      let r ← updateFileContent fs1 path (some content)
      .ok (r.1, ent.id)
    else
      .ok (fs1, ent.id)

/-- `mkdirpSync(path)`: walk the separator-split segments, creating each
missing prefix with `mkdirSync` (which itself does not create parents). -/
def mkdirpSync (fs : MockFs) (path : Str) : Except Str MockFs := do
  let path := normalizePath path
  let segs := path.splitOn '/'
  if segs.length > 1 then
    let r ← (segs.drop 1).foldlM (fun (acc : Str × MockFs) seg => do
      let prevPath := acc.1 ++ '/' :: seg
      let ex ← existsSync acc.2 prevPath
      if ex then
        .ok (prevPath, acc.2)
      else do
        let r ← insertEntityRaw acc.2 prevPath true []
        .ok (prevPath, r.1)) (([] : Str), fs)
    .ok r.2
  else
    .ok fs

/-- `_addEntity(path, stats, content, options)`. -/
def addEntity (fs : MockFs) (path : Str) (isDir : Bool) (content : Str)
    (noCreateParents : Bool) : Except Str (MockFs × Nat) := do
  let dn := splitPath path
  let fs1 ← if noCreateParents then pure fs else mkdirpSync fs dn.1
  insertEntityRaw fs1 path isDir content

/-- `addFile(fullPath, stats, content, options)` (default stats). -/
def addFile (fs : MockFs) (path : Str) (content : Str)
    (noCreateParents : Bool := false) : Except Str (MockFs × Nat) :=
  addEntity fs path false content noCreateParents

/-- `addDirectory(fullPath, stats, options)` (default stats). -/
def addDirectory (fs : MockFs) (path : Str) (noCreateParents : Bool := false) :
    Except Str (MockFs × Nat) :=
  addEntity fs path true [] noCreateParents

/-- The file system produced by `resetFileSystem()` (also the constructor):
empty table, then `addDirectory('/')`. -/
def initFs : MockFs :=
  match addDirectory { entities := [], nextId := 1, openFds := [] } ['/'] with
  | .ok r => r.1
  | .error _ => { entities := [], nextId := 1, openFds := [] }

/-- `_removeEntity(path)`: remove the entity itself (key query), its direct
children (`path` equality) and all deeper descendants (the `^path/` prefix
test). -/
def removeEntity (fs : MockFs) (p : Str) : MockFs :=
  let p := normalizePath p
  let dn := splitPath p
  let keep := fs.entities.filter fun e =>
    ¬(e.path = dn.1 ∧ e.name = dn.2) ∧ ¬(e.path = p) ∧ ¬((p ++ ['/']).isPrefixOf e.path)
  { fs with entities := keep }

/-- `removePath(fullPath)`. -/
def removePath (fs : MockFs) (p : Str) : MockFs := removeEntity fs p

/-- `_moveEntity(oldPath, newPath)`: three sequential passes over the table
(the entry itself, direct children, deeper descendants). -/
def moveEntity (fs : MockFs) (oldPath newPath : Str) : Except Str MockFs := do
  let oldPath := normalizePath oldPath
  let newPath := normalizePath newPath
  let dn := splitPath oldPath
  let newDn := splitPath newPath
  let ex ← existsSync fs newDn.1
  if ¬ex then
    .error (str "target directory does not exist: " ++ newDn.1)
  else
    let pass1 := fs.entities.map fun e =>
      if e.path = dn.1 ∧ e.name = dn.2 then { e with path := newDn.1, name := newDn.2 } else e
    let pass2 := pass1.map fun e =>
      if e.path = oldPath then { e with path := newPath } else e
    let pass3 := pass2.map fun e =>
      if (oldPath ++ ['/']).isPrefixOf e.path then
        { e with path := newPath ++ e.path.drop oldPath.length }
      else e
    .ok { fs with entities := pass3 }

/-- `renameSync(oldPath, newPath)`: an existing destination is removed first;
a missing source crashes in the source (`source.getFullPath()` on `false`). -/
def renameSync (fs : MockFs) (oldPath newPath : Str) : Except Str MockFs := do
  match ← getEntityByPath fs oldPath with
  | none => .error (str "TypeError: cannot read getFullPath of false")
  | some src =>
    let ex ← existsSync fs newPath
    let fs1 := if ex then removePath fs newPath else fs
    moveEntity fs1 src.fullPath newPath

/-- `rmdirSync(path)`. -/
def rmdirSync (fs : MockFs) (p : Str) : Except Str MockFs := do
  let ent ← getDirectoryByPath fs p
  .ok (removeEntity fs ent.fullPath)

/-- `unlinkSync(path)`. -/
def unlinkSync (fs : MockFs) (p : Str) : Except Str MockFs := do
  let ent ← getFileByPath fs p
  .ok (removeEntity fs ent.fullPath)

/-- `getFileContent(fullPath)` (utf8 text of the content buffer). -/
def getFileContent (fs : MockFs) (p : Str) : Except Str Str :=
  (getFileByPath fs p).map (·.content)

/-- The result of seeding `addFile(path, {}, content)` on a given file
system, with the state unchanged when the call throws. -/
def addFileD (fs : MockFs) (path content : Str) : MockFs :=
  match addFile fs path content with
  | .ok r => r.1
  | .error _ => fs

end MockFsM

/-! ## Concrete scenario states -/

namespace MockHttp

/-- A server seeded with `http://h/a ↦ "p"` and its descendant
`http://h/a/b ↦ "q"`. -/
def seededTree : ServerState :=
  setUrlData
    (setUrlData {} (str "http://h/a") (.opts { statusCode := some 200 }) (some (str "p")))
    (str "http://h/a/b") (.opts { statusCode := some 200 }) (some (str "q"))

/-- `seededTree` after a `MOVE http://h/a` with destination `http://h/z`. -/
def movedTree : ServerState :=
  (getResponse seededTree
    { url := str "http://h/a", method := some (str "MOVE"),
      headers := { xDestination := some (str "http://h/z") } } []).1

/-- A server seeded with `http://h/f.txt ↦ "abc"` (a 3-byte body). -/
def seededAbc : ServerState :=
  setUrlData {} (str "http://h/f.txt") (.opts {}) (some (str "abc"))

/-- A server seeded with `http://h/a.txt ↦ "Hello"`. -/
def seededHello : ServerState :=
  setUrlData {} (str "http://h/a.txt") (.opts {}) (some (str "Hello"))

/-- A chunked-upload POST declaring `fileOffset = 1`, `chunkLength = 1`,
`fileLength = 2`. -/
def chunkReqAt1 : ReqOptions :=
  { url := str "http://h/c", method := some (str "POST"),
    form := some { fileOffset := 1, chunkLength := 1, fileLength := 2 } }

end MockHttp

namespace MockFsM

open MockHttp (str)

end MockFsM

/-! ## Dictionary lemmas -/

namespace MockHttp

theorem lookupA_updateA_self [DecidableEq κ] (l : List (κ × α)) (k : κ) (v : α) :
    lookupA (updateA l k v) k = some v := by
  induction l with
  | nil => simp [updateA, lookupA]
  | cons p l ih =>
    by_cases h : p.1 = k
    · simp [updateA, h, lookupA]
    · simpa [updateA, h, lookupA, List.find?_cons_of_neg] using ih

theorem lookupA_updateA_ne [DecidableEq κ] (l : List (κ × α)) (k k' : κ) (v : α)
    (h : k' ≠ k) : lookupA (updateA l k v) k' = lookupA l k' := by
  induction l with
  | nil => simp [updateA, lookupA, List.find?, Ne.symm h]
  | cons p l ih =>
    by_cases hp : p.1 = k
    · subst hp
      simp [updateA, lookupA, List.find?_cons, Ne.symm h]
    · by_cases hq : p.1 = k'
      · simp [updateA, hp, lookupA, List.find?_cons_of_pos, hq, h]
      · simpa [updateA, hp, lookupA, List.find?_cons_of_neg, hq] using ih

theorem lookupA_removeA_ne [DecidableEq κ] (l : List (κ × α)) (k k' : κ)
    (h : k' ≠ k) : lookupA (removeA l k) k' = lookupA l k' := by
  induction l with
  | nil => simp [removeA, lookupA]
  | cons p l ih =>
    by_cases hp : p.1 = k
    · subst hp
      simpa [removeA, lookupA, List.find?_cons_of_neg, Ne.symm h] using ih
    · by_cases hq : p.1 = k'
      · simp [removeA, hp, lookupA, List.find?_cons_of_pos, hq, h]
      · simpa [removeA, hp, lookupA, List.find?_cons_of_neg, hq] using ih

theorem lookupA_removeA_self [DecidableEq κ] (l : List (κ × α)) (k : κ) :
    lookupA (removeA l k) k = none := by
  induction l with
  | nil => simp [removeA, lookupA]
  | cons p l ih =>
    by_cases hp : p.1 = k
    · simpa [removeA, hp] using ih
    · simpa [removeA, hp, lookupA, List.find?_cons_of_neg] using ih

end MockHttp

/-! ## Pipeline lemmas -/

namespace MockHttp

theorem foldl_preserves_requestedUrls {β : Type} (f : ServerState → β → ServerState)
    (hf : ∀ st x, (f st x).requestedUrls = st.requestedUrls) :
    ∀ (l : List β) (st : ServerState), (l.foldl f st).requestedUrls = st.requestedUrls := by
  intro l
  induction l with
  | nil => intro st; rfl
  | cons a l ih => intro st; rw [List.foldl_cons, ih, hf]

theorem moveUrl_requestedUrls (s : ServerState) (a b : Str) :
    (moveUrl s a b).requestedUrls = s.requestedUrls := by
  unfold moveUrl
  split
  · rw [foldl_preserves_requestedUrls]
    · rw [foldl_preserves_requestedUrls]
      · rfl
      · intro st x
        split <;> rfl
    · intro st x
      split
      · split <;> rfl
      · rfl
  · rfl

theorem getDeleteResponse_requestedUrls (s : ServerState) (url : Str) (rb : Option Str) :
    (getDeleteResponse s url rb).1.requestedUrls = s.requestedUrls := by
  unfold getDeleteResponse
  split <;> rfl

theorem getPostResponse_requestedUrls (s : ServerState) (o : ReqOptions) (rb : Option Str)
    (b : Str) : (getPostResponse s o rb b).1.requestedUrls = s.requestedUrls := by
  simp only [getPostResponse]
  repeat' first | rfl | split

theorem getPutResponse_requestedUrls (s : ServerState) (o : ReqOptions) (rb : Option Str)
    (b : Str) : (getPutResponse s o rb b).1.requestedUrls = s.requestedUrls := by
  unfold getPutResponse
  split <;> rfl

theorem getMoveResponse_requestedUrls (s : ServerState) (o : ReqOptions) (rb : Option Str) :
    (getMoveResponse s o rb).1.requestedUrls = s.requestedUrls := by
  unfold getMoveResponse
  split
  · rfl
  · split
    · rfl
    · rfl
    · rfl
    · split
      · rfl
      · rfl
      · rfl
      · exact moveUrl_requestedUrls _ _ _

end MockHttp

namespace MockHttp

theorem getResponse_requestedUrls (s : ServerState) (opts : ReqOptions) (body : Str)
    (h : s.requestCallback = none) :
    (getResponse s opts body).1.requestedUrls =
      if opts.ignoreCount then s.requestedUrls
      else updateA s.requestedUrls (opts.method.getD (str "GET"), opts.url)
        (((lookupA s.requestedUrls (opts.method.getD (str "GET"), opts.url)).getD []) ++
          [{ opts with method := some (opts.method.getD (str "GET")) }]) := by
  simp only [getResponse, h, Option.getD]
  split
  · split <;> rfl
  · split
    · split <;> rfl
    · split
      · rw [getDeleteResponse_requestedUrls]
        split <;> rfl
      · split
        · rw [getPostResponse_requestedUrls]
          split <;> rfl
        · split
          · rw [getPutResponse_requestedUrls]
            split <;> rfl
          · split
            · rw [getMoveResponse_requestedUrls]
              split <;> rfl
            · split <;> rfl

theorem getResponse_on_synthetic_options (s : ServerState) (u : Str)
    (h : s.requestCallback = none) :
    getResponse s { url := u, ignoreCount := true } [] = (s, runSyntheticGet s u) := by
  simp only [getResponse, runSyntheticGet, synthDispatch, h, Option.getD, if_true, ite_true,
    true_or]
  split <;> rfl

theorem urlExistsM_registered_no_data (s : ServerState) (u : Str) (cb : CbResult)
    (hcb : s.requestCallback = none)
    (hreg : lookupA s.registeredUrls (str "GET", urlKey u) = some cb)
    (herr : cb.err = none) (h200 : cb.responseOptions.statusCode = some 200)
    (hdata : lookupA s.urlData (urlKey u) = none) :
    urlExistsM s u =
      some (.error (str "not supported: cannot perform operations on a registered url")) := by
  simp only [urlExistsM, runSyntheticGet, synthDispatch, hcb, Option.getD, hreg, herr,
    mkIncomingMessage, h200, urlExists, hdata]
  simp

theorem lookupA_nil [DecidableEq κ] (k : κ) : lookupA ([] : List (κ × α)) k = none := rfl

theorem urlExistsM_no_callback (s : ServerState) (u : Str)
    (hcb : s.requestCallback = none)
    (hreg : lookupA s.registeredUrls (str "GET", urlKey u) = none) :
    urlExistsM s u = some (.ok (urlExists s u)) := by
  simp only [urlExistsM, runSyntheticGet, synthDispatch, hcb, Option.getD, hreg,
    getGetResponse]
  by_cases hex : urlExists s u
  · simp [hex, createResponse, mkIncomingMessage]
  · simp [hex, createResponse, mkIncomingMessage]

end MockHttp

/-! ## The claims -/

namespace MockHttp

/-- **C1** (the failing input, and what the code does there): with
`http://h/a ↦ "p"` and descendant `http://h/a/b ↦ "q"`, a
`MOVE http://h/a → http://h/z` answers 201 and relocates both keys — a GET on
the old descendant path returns 404 — but the claim's conclusion that a GET
on the new descendant path returns 200 *with the body the descendant had
before the move* fails: `moveUrl`'s per-descendant `setUrlData` call drops an
argument (the old body lands in the `responseOptions` slot, the stored body
defaults to empty), so `GET http://h/z/b` returns 200 with an empty body and
`Content-Length: 0` instead of `"q"`. -/
theorem move_relocates_but_drops_descendant_body :
    getUrlResponseBody seededTree (str "http://h/a/b") = some (str "q") ∧
    (getResponse seededTree
      { url := str "http://h/a", method := some (str "MOVE"),
        headers := { xDestination := some (str "http://h/z") } } []).2 =
      some (.ok ⟨201, {}, some (str "move completed")⟩) ∧
    (getResponse movedTree { url := str "http://h/a/b", method := some (str "GET") } []).2 =
      some (.ok ⟨404, {}, none⟩) ∧
    (getResponse movedTree { url := str "http://h/z/b", method := some (str "GET") } []).2 =
      some (.ok ⟨200, { contentType := none, contentLength := some 0 }, some []⟩) ∧
    ([] : Str) ≠ str "q" := by
  decide

/-- **C2** (the failing input, and what the code does there): for the stored
3-byte body `"abc"`, the range `bytes=0-2` satisfies the claim's validity
condition `0 ≤ start < end < length`, but the code treats any
`end ≥ length - 1` as out of range, and its out-of-range branch constructs a
400 response without ever invoking the completion callback — so no response
at all is delivered (`none`), neither the claimed 206 slice nor a 400.  A
strictly interior range (`bytes=0-1`) and a malformed header behave as the
claim says. -/
theorem range_get_drops_response_at_last_byte :
    (getResponse seededAbc
      { url := str "http://h/f.txt", method := some (str "GET"),
        headers := { range := some (str "bytes=0-2") } } []).2 = none ∧
    (getResponse seededAbc
      { url := str "http://h/f.txt", method := some (str "GET"),
        headers := { range := some (str "bytes=0-1") } } []).2 =
      some (.ok ⟨206, { contentType := some (str "text/plain"), contentLength := some 2 },
        some (str "ab")⟩) ∧
    (getResponse seededAbc
      { url := str "http://h/f.txt", method := some (str "GET"),
        headers := { range := some (str "bad") } } []).2 =
      some (.ok ⟨400, {}, some (str "unsupported range header")⟩) := by
  decide

/-- **C5** (the failing input, and what the code does there): a GET on the
stored resource returns 200 with `Content-Type` from the extension and
`Content-Length` equal to the body length, and a HEAD returns the same
status and headers — but the HEAD response *carries the body identically to
GET* (the handler's `includeBody` parameter is never read), contradicting
the claim that HEAD does not deliver the body. -/
theorem head_delivers_body :
    (getResponse seededHello { url := str "http://h/a.txt", method := some (str "GET") } []).2 =
      some (.ok ⟨200, { contentType := some (str "text/plain"), contentLength := some 5 },
        some (str "Hello")⟩) ∧
    (getResponse seededHello { url := str "http://h/a.txt", method := some (str "HEAD") } []).2 =
      some (.ok ⟨200, { contentType := some (str "text/plain"), contentLength := some 5 },
        some (str "Hello")⟩) := by
  decide

/-- **C3** (counterexample): a first chunk declaring `fileOffset = 1` (with
`chunkLength = 1`, `fileLength = 2`, body `"b"`) passes validation, but the
byte is copied at the *cumulative* offset 0, not at the given `fileOffset`:
the assembly buffer becomes `['b', 0]`, not `[0, 'b']` as the claim
requires. -/
theorem chunk_write_ignores_fileOffset :
    (lookupA (getResponse {} chunkReqAt1 (str "b")).1.chunkData (str "http://h/c")).map
        (·.content) = some ['b', '\x00'] ∧
    (['b', '\x00'] : Str) ≠ ['\x00', 'b'] := by
  decide

/-- **C4** (counterexample): from the empty state (`B = http://h/a/b` does
not exist, and neither does its parent `http://h/a`), the first whole-body
POST does not return 201 and does not create `B`: the built-in POST handler
checks the parent first and answers 404 `parent not found`, leaving the
store empty. -/
theorem post_missing_parent_is_404 :
    (getResponse {} { url := str "http://h/a/b", method := some (str "POST") } (str "x")).2 =
      some (.ok ⟨404, {}, some (str "parent not found")⟩) ∧
    (getResponse {} { url := str "http://h/a/b", method := some (str "POST") } (str "x")).1.urlData
      = [] := by
  decide

end MockHttp

namespace MockFsM

open MockHttp (str)

/-- **C9** (counterexample): the root directory exists in the initial state,
but it is not an invariant of every operation: `removePath('/')` removes the
root entity itself (its `(parentPath, name)` key `('', '/')` matches the
removal query). -/
theorem removePath_root_removes_root :
    existsSync initFs (str "/") = .ok true ∧
    existsSync (removePath initFs (str "/")) (str "/") = .ok false := by
  decide

end MockFsM

namespace MockHttp

/-- **C10**: the synthetic existence-check GETs issued internally by the
built-in DELETE, POST, PUT and MOVE handlers carry `ignoreCount`, so (with
the default global callback) executing any of these verbs against any URL
leaves the recorded request count for `('GET', u)` — in fact for `('GET', v)`
for every `v` — unchanged: only the verb's own `(method, url)` entry is ever
appended to. -/
theorem builtin_verbs_leave_get_count_unchanged (s : ServerState) (opts : ReqOptions)
    (body : Str) (m v : Str) (hcb : s.requestCallback = none) (hm : opts.method = some m)
    (hverb : m = str "DELETE" ∨ m = str "POST" ∨ m = str "PUT" ∨ m = str "MOVE") :
    getRequestedUrlCount (getResponse s opts body).1 (str "GET") v =
      getRequestedUrlCount s (str "GET") v := by
  have hne : ((str "GET", v) : Str × Str) ≠ (m, opts.url) := by
    intro hc
    have h2 : str "GET" = m := congrArg Prod.fst hc
    rcases hverb with h1 | h1 | h1 | h1 <;> rw [h1] at h2 <;> exact absurd h2 (by decide)
  unfold getRequestedUrlCount
  rw [getResponse_requestedUrls s opts body hcb]
  split
  · rfl
  · rw [hm]
    simp only [Option.getD]
    rw [lookupA_updateA_ne _ _ _ _ (by simpa [hm] using hne)]

theorem builtin_verbs_leave_get_count_unchanged_witness :
    getRequestedUrlCount
      (getResponse seededHello
        { url := str "http://h/a.txt", method := some (str "DELETE") } []).1
      (str "GET") (str "http://h/a.txt") =
    getRequestedUrlCount seededHello (str "GET") (str "http://h/a.txt") :=
  builtin_verbs_leave_get_count_unchanged seededHello _ [] (str "DELETE")
    (str "http://h/a.txt") rfl rfl (Or.inl rfl)

end MockHttp

namespace MockHttp

/-- A state whose only content is a registered GET callback for
`http://h/r` answering status 200 (no stored data). -/
def regOnlyState : ServerState :=
  registerUrl {} (str "GET") (str "http://h/r")
    { responseOptions := { statusCode := some 200 } }

/-- **C6**: in every state (default global callback) where a registered GET
callback for `u` claims status 200 but the resource store has no entry for
`u`, each of the built-in DELETE, POST, PUT and MOVE handlers' existence
checks surfaces the consistency violation as a hard error in the completion
callback's `err` argument — not as an HTTP status-code response.  (The POST
case is stated for a top-level `u`, whose parent implicitly exists; the MOVE
request carries a parsable destination header.) -/
theorem existence_check_consistency_error (s : ServerState) (u : Str) (cb : CbResult)
    (hcb : s.requestCallback = none)
    (hreg : lookupA s.registeredUrls (str "GET", urlKey u) = some cb)
    (herr : cb.err = none) (h200 : cb.responseOptions.statusCode = some 200)
    (hdata : lookupA s.urlData (urlKey u) = none)
    (hregD : lookupA s.registeredUrls (str "DELETE", urlKey u) = none)
    (hregPo : lookupA s.registeredUrls (str "POST", urlKey u) = none)
    (hregPu : lookupA s.registeredUrls (str "PUT", urlKey u) = none)
    (hregM : lookupA s.registeredUrls (str "MOVE", urlKey u) = none)
    (hroot : (parseUrl (parentOf u)).pathname = none ∨
      (parseUrl (parentOf u)).pathname = some ['/']) :
    (getResponse s { url := u, method := some (str "DELETE") } []).2 =
      some (.error (str "not supported: cannot perform operations on a registered url")) ∧
    (getResponse s { url := u, method := some (str "POST") } []).2 =
      some (.error (str "not supported: cannot perform operations on a registered url")) ∧
    (getResponse s { url := u, method := some (str "PUT") } []).2 =
      some (.error (str "not supported: cannot perform operations on a registered url")) ∧
    (getResponse s
        { url := u, method := some (str "MOVE"),
          headers := { xDestination := some (str "/d") } } []).2 =
      some (.error (str "not supported: cannot perform operations on a registered url")) := by
  have hex : ∀ (ru : List ((Str × Str) × List ReqOptions))
      (cd : List (Str × ChunkEntry)),
      urlExistsM
        { registeredUrls := s.registeredUrls, urlData := s.urlData,
          requestCallback := none, requestedUrls := ru, chunkData := cd } u =
        some (.error (str "not supported: cannot perform operations on a registered url")) := by
    intro ru cd
    exact urlExistsM_registered_no_data _ u cb rfl hreg herr h200 hdata
  refine ⟨?_, ?_, ?_, ?_⟩
  · simp +decide only [getResponse, hcb, Option.getD, getDeleteResponse, hregD, if_false, if_true]
    rw [hex]
  · simp +decide only [getResponse, hcb, Option.getD, getPostResponse, hregPo,
      postParentCheck, if_pos hroot, if_false, if_true]
    rw [hex]
  · simp +decide only [getResponse, hcb, Option.getD, getPutResponse, hregPu, if_false, if_true]
    rw [hex]
  · have hdest : getDestinationUrl
        { url := u, method := some (str "MOVE"),
          headers := { xDestination := some (str "/d") } } =
        .ok (optStr (parseUrl u).protocol ++ ['/', '/'] ++ optStr (parseUrl u).host ++
          str "/d") := rfl
    simp +decide only [getResponse, hcb, Option.getD, getMoveResponse, hregM, hdest, if_false, if_true]
    rw [hex]

/-- Witness for `existence_check_consistency_error` at the concrete state
`regOnlyState` and URL `http://h/r`. -/
theorem existence_check_consistency_error_witness :
    (getResponse regOnlyState { url := str "http://h/r", method := some (str "DELETE") } []).2 =
      some (.error (str "not supported: cannot perform operations on a registered url")) ∧
    (getResponse regOnlyState { url := str "http://h/r", method := some (str "POST") } []).2 =
      some (.error (str "not supported: cannot perform operations on a registered url")) ∧
    (getResponse regOnlyState { url := str "http://h/r", method := some (str "PUT") } []).2 =
      some (.error (str "not supported: cannot perform operations on a registered url")) ∧
    (getResponse regOnlyState
        { url := str "http://h/r", method := some (str "MOVE"),
          headers := { xDestination := some (str "/d") } } []).2 =
      some (.error (str "not supported: cannot perform operations on a registered url")) :=
  existence_check_consistency_error regOnlyState (str "http://h/r")
    { responseOptions := { statusCode := some 200 } }
    rfl (by decide) rfl rfl (by decide) (by decide) (by decide) (by decide) (by decide)
    (Or.inl (by decide))

end MockHttp

namespace MockHttp

/-- **C4** (amended): for every URL `B` and pair of whole-body POSTs from a
state with the default global callback, no registered per-URL callbacks, no
entry for `B`, and `B`'s parent either root-like or stored: the first POST
answers 201 and stores the first body under `B`'s key; the second POST
answers 409 and leaves the resource store unchanged; a following GET answers
200 with the first body (and its length as `Content-Length`). -/
theorem post_twice_conflict_roundtrip (s : ServerState) (B : Str) (body1 body2 : Str)
    (hcb : s.requestCallback = none) (hreg : s.registeredUrls = [])
    (hdata : lookupA s.urlData (urlKey B) = none)
    (hparent : (parseUrl (parentOf B)).pathname = none ∨
      (parseUrl (parentOf B)).pathname = some ['/'] ∨
      (lookupA s.urlData (urlKey (parentOf B))).isSome = true) :
    (getResponse s { url := B, method := some (str "POST") } body1).2 =
      some (.ok ⟨201, {}, some (str "path created")⟩) ∧
    lookupA (getResponse s { url := B, method := some (str "POST") } body1).1.urlData
      (urlKey B) = some ⟨.opts {}, body1⟩ ∧
    (getResponse (getResponse s { url := B, method := some (str "POST") } body1).1
      { url := B, method := some (str "POST") } body2).2 =
      some (.ok ⟨409, {}, some (str "conflict: already exists")⟩) ∧
    (getResponse (getResponse s { url := B, method := some (str "POST") } body1).1
      { url := B, method := some (str "POST") } body2).1.urlData =
      (getResponse s { url := B, method := some (str "POST") } body1).1.urlData ∧
    (getResponse (getResponse (getResponse s { url := B, method := some (str "POST") } body1).1
        { url := B, method := some (str "POST") } body2).1
      { url := B, method := some (str "GET") } []).2 =
      some (.ok ⟨200, { contentType := mimeGetType B, contentLength := some body1.length },
        some body1⟩) := by
  have hnx : ∀ (ru : List ((Str × Str) × List ReqOptions)) (cd : List (Str × ChunkEntry)),
      urlExistsM
        { registeredUrls := [], urlData := s.urlData,
          requestCallback := none, requestedUrls := ru, chunkData := cd } B =
        some (.ok false) := by
    intro ru cd
    rw [urlExistsM_no_callback _ _ rfl (lookupA_nil _)]
    simp [urlExists, hdata]
  have hpc : ∀ (ru : List ((Str × Str) × List ReqOptions)) (cd : List (Str × ChunkEntry)),
      postParentCheck
        { registeredUrls := [], urlData := s.urlData,
          requestCallback := none, requestedUrls := ru, chunkData := cd } B =
        some (.ok true) := by
    intro ru cd
    by_cases hr : (parseUrl (parentOf B)).pathname = none ∨
        (parseUrl (parentOf B)).pathname = some ['/']
    · simp [postParentCheck, if_pos hr]
    · rcases hparent with h | h | h
      · exact absurd (Or.inl h) hr
      · exact absurd (Or.inr h) hr
      · rw [postParentCheck, if_neg hr, urlExistsM_no_callback _ _ rfl (lookupA_nil _)]
        simp [urlExists, h]
  have hex2 : ∀ (ru : List ((Str × Str) × List ReqOptions)) (cd : List (Str × ChunkEntry)),
      urlExistsM
        { registeredUrls := [], urlData := updateA s.urlData (urlKey B) ⟨.opts {}, body1⟩,
          requestCallback := none, requestedUrls := ru, chunkData := cd } B =
        some (.ok true) := by
    intro ru cd
    rw [urlExistsM_no_callback _ _ rfl (lookupA_nil _)]
    simp [urlExists, lookupA_updateA_self]
  have hpc2 : ∀ (ru : List ((Str × Str) × List ReqOptions)) (cd : List (Str × ChunkEntry)),
      postParentCheck
        { registeredUrls := [], urlData := updateA s.urlData (urlKey B) ⟨.opts {}, body1⟩,
          requestCallback := none, requestedUrls := ru, chunkData := cd } B =
        some (.ok true) := by
    intro ru cd
    by_cases hr : (parseUrl (parentOf B)).pathname = none ∨
        (parseUrl (parentOf B)).pathname = some ['/']
    · simp [postParentCheck, if_pos hr]
    · rcases hparent with h | h | h
      · exact absurd (Or.inl h) hr
      · exact absurd (Or.inr h) hr
      · rw [postParentCheck, if_neg hr, urlExistsM_no_callback _ _ rfl (lookupA_nil _)]
        by_cases hk : urlKey (parentOf B) = urlKey B
        · simp [urlExists, hk, lookupA_updateA_self]
        · simp [urlExists, lookupA_updateA_ne _ _ _ _ hk, h]
  refine ⟨?_, ?_, ?_, ?_, ?_⟩
  · simp +decide only [getResponse, hcb, Option.getD, if_false, if_true, getPostResponse,
      hreg, lookupA_nil, hpc, hnx, setUrlData]
  · simp +decide only [getResponse, hcb, Option.getD, if_false, if_true, getPostResponse,
      hreg, lookupA_nil, hpc, hnx, setUrlData]
    exact lookupA_updateA_self _ _ _
  · simp +decide only [getResponse, hcb, Option.getD, if_false, if_true, getPostResponse,
      hreg, lookupA_nil, hpc, hnx, hpc2, hex2, setUrlData]
  · simp +decide only [getResponse, hcb, Option.getD, if_false, if_true, getPostResponse,
      hreg, lookupA_nil, hpc, hnx, hpc2, hex2, setUrlData]
  · simp +decide only [getResponse, hcb, Option.getD, if_false, if_true, getPostResponse,
      hreg, lookupA_nil, hpc, hnx, hpc2, hex2, setUrlData, getGetResponse, urlExists,
      getUrlResponseBody, lookupA_updateA_self, createResponse, mkIncomingMessage]
    simp [lookupA_updateA_self]

/-- Witness for `post_twice_conflict_roundtrip`: empty server,
`B = http://h/B`, bodies `"x"` then `"y"`. -/
theorem post_twice_conflict_roundtrip_witness :
    (getResponse {} { url := str "http://h/B", method := some (str "POST") } (str "x")).2 =
      some (.ok ⟨201, {}, some (str "path created")⟩) ∧
    lookupA (getResponse {} { url := str "http://h/B", method := some (str "POST") }
      (str "x")).1.urlData (urlKey (str "http://h/B")) = some ⟨.opts {}, str "x"⟩ ∧
    (getResponse (getResponse {} { url := str "http://h/B", method := some (str "POST") }
        (str "x")).1
      { url := str "http://h/B", method := some (str "POST") } (str "y")).2 =
      some (.ok ⟨409, {}, some (str "conflict: already exists")⟩) ∧
    (getResponse (getResponse {} { url := str "http://h/B", method := some (str "POST") }
        (str "x")).1
      { url := str "http://h/B", method := some (str "POST") } (str "y")).1.urlData =
      (getResponse {} { url := str "http://h/B", method := some (str "POST") }
        (str "x")).1.urlData ∧
    (getResponse (getResponse (getResponse {}
          { url := str "http://h/B", method := some (str "POST") } (str "x")).1
        { url := str "http://h/B", method := some (str "POST") } (str "y")).1
      { url := str "http://h/B", method := some (str "GET") } []).2 =
      some (.ok ⟨200,
        { contentType := mimeGetType (str "http://h/B"),
          contentLength := some (str "x").length }, some (str "x")⟩) :=
  post_twice_conflict_roundtrip {} (str "http://h/B") (str "x") (str "y")
    rfl rfl (by decide) (Or.inl (by decide))

end MockHttp

namespace MockHttp

/-- The assembly state the chunked-upload branch works with: the existing
`chunkData[url]` entry, or the freshly created
`{content: Buffer.alloc(fileLength), currOffset: 0}`. -/
def chunkStateOf (s : ServerState) (u : Str) (fd : FormData) : ChunkEntry :=
  (lookupA s.chunkData u).getD ⟨bufAlloc fd.fileLength.toNat, 0⟩

/-- **C3** (amended): a chunked POST to a non-existing URL (default
callbacks, parent root-like or stored) whose metadata passes validation
writes the body bytes into the per-URL assembly buffer at the assembly
state's *cumulative* `currOffset` (not at the given `fileOffset`, which only
feeds validation and defaults to `currOffset` when 0/absent); when the
cumulative offset reaches `fileLength` the assembled buffer becomes the
resource's stored body and the chunk state is deleted (otherwise the updated
chunk state persists and no resource is created); and the response is 200
`chunk uploaded` in both cases, never 201. -/
theorem chunk_upload_writes_at_cumulative_offset (s : ServerState) (u body : Str)
    (fd : FormData)
    (hcb : s.requestCallback = none) (hreg : s.registeredUrls = [])
    (hdata : lookupA s.urlData (urlKey u) = none)
    (hparent : (parseUrl (parentOf u)).pathname = none ∨
      (parseUrl (parentOf u)).pathname = some ['/'] ∨
      (lookupA s.urlData (urlKey (parentOf u))).isSome = true)
    (hchunk : fd.chunkLength = (body.length : Int)) (hbody : body ≠ [])
    (hoff : 0 ≤ (if fd.fileOffset = 0 then (chunkStateOf s u fd).currOffset
        else fd.fileOffset) ∧
      (if fd.fileOffset = 0 then (chunkStateOf s u fd).currOffset else fd.fileOffset) <
        ((chunkStateOf s u fd).content.length : Int)) :
    (getResponse s { url := u, method := some (str "POST"), form := some fd } body).2 =
      some (.ok ⟨200, {}, some (str "chunk uploaded")⟩) ∧
    ((chunkStateOf s u fd).currOffset + fd.chunkLength ≥ fd.fileLength →
      lookupA (getResponse s { url := u, method := some (str "POST"), form := some fd }
          body).1.urlData (urlKey u) =
        some ⟨.opts {}, bufCopy (chunkStateOf s u fd).content
          (chunkStateOf s u fd).currOffset.toNat body⟩ ∧
      lookupA (getResponse s { url := u, method := some (str "POST"), form := some fd }
          body).1.chunkData u = none) ∧
    (¬((chunkStateOf s u fd).currOffset + fd.chunkLength ≥ fd.fileLength) →
      lookupA (getResponse s { url := u, method := some (str "POST"), form := some fd }
          body).1.chunkData u =
        some ⟨bufCopy (chunkStateOf s u fd).content (chunkStateOf s u fd).currOffset.toNat
          body, (chunkStateOf s u fd).currOffset + fd.chunkLength⟩ ∧
      lookupA (getResponse s { url := u, method := some (str "POST"), form := some fd }
          body).1.urlData (urlKey u) = none) := by
  have hnx : ∀ (ru : List ((Str × Str) × List ReqOptions)) (cd : List (Str × ChunkEntry)),
      urlExistsM
        { registeredUrls := [], urlData := s.urlData,
          requestCallback := none, requestedUrls := ru, chunkData := cd } u =
        some (.ok false) := by
    intro ru cd
    rw [urlExistsM_no_callback _ _ rfl (lookupA_nil _)]
    simp [urlExists, hdata]
  have hpc : ∀ (ru : List ((Str × Str) × List ReqOptions)) (cd : List (Str × ChunkEntry)),
      postParentCheck
        { registeredUrls := [], urlData := s.urlData,
          requestCallback := none, requestedUrls := ru, chunkData := cd } u =
        some (.ok true) := by
    intro ru cd
    by_cases hr : (parseUrl (parentOf u)).pathname = none ∨
        (parseUrl (parentOf u)).pathname = some ['/']
    · simp [postParentCheck, if_pos hr]
    · rcases hparent with h | h | h
      · exact absurd (Or.inl h) hr
      · exact absurd (Or.inr h) hr
      · rw [postParentCheck, if_neg hr, urlExistsM_no_callback _ _ rfl (lookupA_nil _)]
        simp [urlExists, h]
  have hcl : fd.chunkLength ≠ 0 := by
    rw [hchunk]
    simpa using hbody
  have hvalid : ¬((if fd.fileOffset = 0 then (chunkStateOf s u fd).currOffset
        else fd.fileOffset) < 0 ∨
      (if fd.fileOffset = 0 then (chunkStateOf s u fd).currOffset else fd.fileOffset) ≥
        ((chunkStateOf s u fd).content.length : Int) ∨
      fd.chunkLength ≠ (body.length : Int)) := by
    push_neg
    exact ⟨hoff.1, hoff.2, hchunk⟩
  rcases hcd : lookupA s.chunkData u with _ | e
  · have hcs : chunkStateOf s u fd = ⟨bufAlloc fd.fileLength.toNat, 0⟩ := by
      simp [chunkStateOf, hcd]
    rw [hcs] at hvalid ⊢
    by_cases hfin : (0 : Int) + fd.chunkLength ≥ fd.fileLength
    · simp +decide only [getResponse, hcb, Option.getD, if_false, if_true, getPostResponse,
        hreg, lookupA_nil, hpc, hnx, hcd, if_pos hcl, if_neg hvalid, if_pos hfin, hfin,
        setUrlData, lookupA_updateA_self, lookupA_removeA_self, createResponse,
        mkIncomingMessage]
      simp [hdata]
    · simp +decide only [getResponse, hcb, Option.getD, if_false, if_true, getPostResponse,
        hreg, lookupA_nil, hpc, hnx, hcd, if_pos hcl, if_neg hvalid, if_neg hfin, hfin,
        setUrlData, lookupA_updateA_self, lookupA_removeA_self, createResponse,
        mkIncomingMessage]
      simp [hdata]
  · have hcs : chunkStateOf s u fd = e := by
      simp [chunkStateOf, hcd]
    rw [hcs] at hvalid ⊢
    by_cases hfin : e.currOffset + fd.chunkLength ≥ fd.fileLength
    · simp +decide only [getResponse, hcb, Option.getD, if_false, if_true, getPostResponse,
        hreg, lookupA_nil, hpc, hnx, hcd, if_pos hcl, if_neg hvalid, if_pos hfin, hfin,
        setUrlData, lookupA_updateA_self, lookupA_removeA_self, createResponse,
        mkIncomingMessage]
      simp [hdata]
    · simp +decide only [getResponse, hcb, Option.getD, if_false, if_true, getPostResponse,
        hreg, lookupA_nil, hpc, hnx, hcd, if_pos hcl, if_neg hvalid, if_neg hfin, hfin,
        setUrlData, lookupA_updateA_self, lookupA_removeA_self, createResponse,
        mkIncomingMessage]
      simp [hdata]

/-- Witness for `chunk_upload_writes_at_cumulative_offset`: empty server,
one chunk of 2 bytes completing a 2-byte upload of `"ab"` to
`http://h/c`. -/
theorem chunk_upload_writes_at_cumulative_offset_witness :
    (getResponse {}
      { url := str "http://h/c", method := some (str "POST"),
        form := some ⟨0, 2, 2⟩ } (str "ab")).2 =
      some (.ok ⟨200, {}, some (str "chunk uploaded")⟩) ∧
    ((chunkStateOf {} (str "http://h/c") ⟨0, 2, 2⟩).currOffset + (2 : Int) ≥ 2 →
      lookupA (getResponse {}
          { url := str "http://h/c", method := some (str "POST"),
            form := some ⟨0, 2, 2⟩ } (str "ab")).1.urlData (urlKey (str "http://h/c")) =
        some ⟨.opts {}, bufCopy (chunkStateOf {} (str "http://h/c") ⟨0, 2, 2⟩).content
          (chunkStateOf {} (str "http://h/c") ⟨0, 2, 2⟩).currOffset.toNat (str "ab")⟩ ∧
      lookupA (getResponse {}
          { url := str "http://h/c", method := some (str "POST"),
            form := some ⟨0, 2, 2⟩ } (str "ab")).1.chunkData (str "http://h/c") = none) ∧
    (¬((chunkStateOf {} (str "http://h/c") ⟨0, 2, 2⟩).currOffset + (2 : Int) ≥ 2) →
      lookupA (getResponse {}
          { url := str "http://h/c", method := some (str "POST"),
            form := some ⟨0, 2, 2⟩ } (str "ab")).1.chunkData (str "http://h/c") =
        some ⟨bufCopy (chunkStateOf {} (str "http://h/c") ⟨0, 2, 2⟩).content
          (chunkStateOf {} (str "http://h/c") ⟨0, 2, 2⟩).currOffset.toNat (str "ab"),
          (chunkStateOf {} (str "http://h/c") ⟨0, 2, 2⟩).currOffset + (2 : Int)⟩ ∧
      lookupA (getResponse {}
          { url := str "http://h/c", method := some (str "POST"),
            form := some ⟨0, 2, 2⟩ } (str "ab")).1.urlData (urlKey (str "http://h/c")) =
        none) :=
  chunk_upload_writes_at_cumulative_offset {} (str "http://h/c") (str "ab") ⟨0, 2, 2⟩
    rfl rfl (by decide) (Or.inl (by decide)) (by decide) (by decide) (by decide)

end MockHttp

namespace MockFsM

open MockHttp (Str str)

/-- Characters with a special meaning in a JS regular expression. -/
def regexSpecial (c : Char) : Bool :=
  c = '.' ∨ c = '*' ∨ c = '+' ∨ c = '?' ∨ c = '(' ∨ c = ')' ∨ c = '[' ∨ c = ']' ∨
  c = Char.ofNat 123 ∨ c = Char.ofNat 125 ∨ c = '^' ∨ c = '$' ∨ c = '|' ∨ c = '\\'

/-- A canonical absolute non-root path: starts with the separator, does not
end with it, has no doubled separator, and no character that a JS regex
treats specially (`_getDescendantRegex` escapes only separators, so the
model's prefix test agrees with the source's regex test exactly on such
paths; this also excludes backslashes, so normalization is the identity). -/
def cleanPath (p : Str) : Bool :=
  p.head? = some '/' ∧ p ≠ ['/'] ∧ p.getLast? ≠ some '/' ∧
  ¬(['/', '/'] <:+: p) ∧ p.all (fun c => ¬regexSpecial c = true)

theorem map_eq_self {α : Type} (f : α → α) (l : List α) (h : ∀ x ∈ l, f x = x) :
    l.map f = l := by
  induction l with
  | nil => rfl
  | cons a t ih =>
    simp only [List.map_cons, h a (by simp)]
    rw [ih fun x hx => h x (by simp [hx])]

theorem drop_length_takeWhile {α : Type} (p : α → Bool) (l : List α) :
    l.drop (l.takeWhile p).length = l.dropWhile p := by
  induction l with
  | nil => rfl
  | cons a t ih =>
    by_cases h : p a
    · simp [List.takeWhile_cons, h, ih]
    · simp [List.takeWhile_cons, h, List.dropWhile_cons]

theorem dropWhile_head_false {α : Type} (p : α → Bool) (l : List α) (a : α) (t : List α)
    (h : l.dropWhile p = a :: t) : p a = false := by
  have := List.head_dropWhile_not p (l := l) (by simp [h])
  simpa [h] using this

theorem clean_no_backslash (p : Str) (h : cleanPath p = true) : ∀ c ∈ p, c ≠ '\\' := by
  simp only [cleanPath, Bool.and_eq_true, decide_eq_true_eq, List.all_eq_true] at h
  intro c hc
  have h5 := h.2.2.2.2 c hc
  simp [regexSpecial] at h5
  exact h5.2.2.2.2.2.2.2.2.2.2.2.2.2

theorem normalizePath_of_clean (p : Str) (h : cleanPath p = true) :
    normalizePath p = p := by
  have hnb := clean_no_backslash p h
  simp only [cleanPath, Bool.and_eq_true, decide_eq_true_eq, List.all_eq_true] at h
  obtain ⟨h1, h2, h3, _, _⟩ := h
  have hne : p ≠ [] := by
    intro hnil
    rw [hnil] at h1
    simp at h1
  have hmap : p.map (fun c => if c = '\\' then '/' else c) = p :=
    map_eq_self _ _ fun c hc => by simp [hnb c hc]
  simp only [normalizePath, hne, if_false, hmap]
  rw [if_neg]
  intro hcontra
  exact absurd hcontra.2 h3

end MockFsM

namespace MockFsM

open MockHttp (Str str)

theorem joinPath_splitPath (q : Str) (hn : normalizePath q = q) (hroot : q ≠ ['/'])
    (hnd : ¬(['/', '/'] <:+: q)) :
    joinPath (splitPath q).1 (splitPath q).2 = q := by
  unfold splitPath
  rw [hn]
  simp only [hroot, if_false]
  rw [drop_length_takeWhile]
  have hdecomp : q.reverse.takeWhile (· ≠ '/') ++ q.reverse.dropWhile (· ≠ '/') = q.reverse :=
    List.takeWhile_append_dropWhile _ _
  have hq : q = (q.reverse.dropWhile (· ≠ '/')).reverse ++
      (q.reverse.takeWhile (· ≠ '/')).reverse := by
    have h0 := congrArg List.reverse hdecomp
    rw [List.reverse_append, List.reverse_reverse] at h0
    exact h0.symm
  rcases hrc : q.reverse.dropWhile (· ≠ '/') with _ | ⟨c, t⟩
  · rw [hrc] at hq
    conv_rhs => rw [hq]
    simp [hrc, joinPath]
  · have hc : c = '/' := by
      have := dropWhile_head_false (· ≠ '/') q.reverse c t hrc
      simpa using this
    subst hc
    rw [hrc] at hq
    rcases t with _ | ⟨c2, t2⟩
    · conv_rhs => rw [hq]
      simp [hrc, joinPath]
    · have hdir2 : ((c2 :: t2 : Str).reverse) ≠ (['/'] : Str) := by
        intro hcon
        have hcon2 : (c2 :: t2 : Str) = ['/'] := by
          have := congrArg List.reverse hcon
          simpa using this
        apply hnd
        rw [hcon2] at hq
        exact ⟨[], (q.reverse.takeWhile (· ≠ '/')).reverse, by simpa using hq.symm⟩
      conv_rhs => rw [hq]
      simp only [joinPath]
      simp
      intro hcon
      exact absurd (by rw [List.reverse_cons]; exact hcon) hdir2

end MockFsM

namespace MockFsM

open MockHttp (Str str)

theorem takeWhile_append_of_all {α : Type} (p : α → Bool) (a b : List α) (c : α)
    (ha : ∀ x ∈ a, p x = true) (hc : p c = false) :
    (a ++ c :: b).takeWhile p = a := by
  induction a with
  | nil => simp [List.takeWhile_cons, hc]
  | cons x t ih =>
    have hx := ha x (by simp)
    simp [List.takeWhile_cons, hx, ih fun y hy => ha y (by simp [hy])]

theorem normalizePath_eq_self (q : Str) (hne : q ≠ [])
    (hnb : ∀ c ∈ q, c ≠ '\\') (hlast : q.getLast? ≠ some '/') :
    normalizePath q = q := by
  have hmap : q.map (fun c => if c = '\\' then '/' else c) = q :=
    map_eq_self _ _ fun c hc => by simp [hnb c hc]
  simp only [normalizePath, hne, if_false, hmap]
  rw [if_neg]
  intro hcontra
  exact absurd hcontra.2 hlast

theorem splitPath_join (d n : Str) (hd : ∀ c ∈ d, c ≠ '\\') (hn : n ≠ [])
    (hs : '/' ∉ n) (hb : '\\' ∉ n) :
    splitPath (joinPath d n) = (d, n) := by
  obtain ⟨m, nl, hnl⟩ : ∃ m nl, n = nl ++ [m] := by
    rcases n.eq_nil_or_concat with h | ⟨L, b, h⟩
    · exact absurd h hn
    · exact ⟨b, L, by simpa [List.concat_eq_append] using h⟩
  have hmlast : n.getLast? = some m := by rw [hnl]; exact List.getLast?_concat _
  have hmn : m ∈ n := by rw [hnl]; simp
  have hnorm : ∀ q : Str, q ≠ [] → (∀ c ∈ q, c ≠ '\\') → q.getLast? = some m →
      normalizePath q = q := by
    intro q h1 h2 h3
    refine normalizePath_eq_self q h1 h2 ?_
    rw [h3]
    intro hcon
    apply hs
    have hm : m = '/' := by simpa using hcon
    exact hm ▸ hmn
  have hnb : ∀ c ∈ n, c ≠ '\\' := fun c hc heq => hb (heq ▸ hc)
  have htw : (n.reverse).takeWhile (fun x => decide ¬(x = '/')) = n.reverse := by
    rw [List.takeWhile_eq_self_iff]
    intro x hx
    simp only [decide_eq_true_eq]
    intro hcon
    exact hs (by simpa using hcon ▸ (List.mem_reverse.mp hx))
  by_cases hdnil : d = []
  · subst hdnil
    have hq : joinPath [] n = n := by simp [joinPath]
    rw [hq]
    have hnn : normalizePath n = n := hnorm n hn hnb hmlast
    have hroot : n ≠ ['/'] := fun hcon => hs (by simp [hcon])
    unfold splitPath
    rw [hnn]
    simp only [hroot, if_false, htw]
    simp
  · by_cases hdroot : d = ['/']
    · subst hdroot
      have hq : joinPath ['/'] n = '/' :: n := by simp [joinPath]
      rw [hq]
      have hne2 : ('/' :: n : Str) ≠ [] := by simp
      have hlast2 : ('/' :: n : Str).getLast? = some m := by
        have : ('/' :: n : Str) = ['/'] ++ n := rfl
        rw [this, List.getLast?_append, hmlast]
        rfl
      have hnbc : ∀ c ∈ ('/' :: n : Str), c ≠ '\\' := by
        intro c hc
        rcases List.mem_cons.mp hc with rfl | hc2
        · simp
        · exact hnb c hc2
      have hnn : normalizePath ('/' :: n) = '/' :: n := hnorm _ hne2 hnbc hlast2
      have hroot : ('/' :: n : Str) ≠ ['/'] := by
        intro hcon
        exact hn (by simpa using hcon)
      unfold splitPath
      rw [hnn]
      simp only [hroot, if_false]
      have hrev : ('/' :: n : Str).reverse = n.reverse ++ '/' :: ([] : Str) := by simp
      rw [hrev]
      rw [takeWhile_append_of_all _ _ _ _
        (fun x hx => by simp only [decide_eq_true_eq]; intro hcon;
                        exact hs (by simpa using hcon ▸ (List.mem_reverse.mp hx)))
        (by simp)]
      rw [show (n.reverse).length = n.length by simp, show n.length = (n.reverse).length by simp,
        List.drop_left]
      simp
    · have hq : joinPath d n = d ++ '/' :: n := by simp [joinPath, hdnil, hdroot]
      rw [hq]
      have hne2 : (d ++ '/' :: n : Str) ≠ [] := by simp
      have hlast2 : (d ++ '/' :: n : Str).getLast? = some m := by
        rw [List.getLast?_append]
        have : ('/' :: n : Str).getLast? = some m := by
          have h2 : ('/' :: n : Str) = ['/'] ++ n := rfl
          rw [h2, List.getLast?_append, hmlast]; rfl
        rw [this]; rfl
      have hnbc : ∀ c ∈ (d ++ '/' :: n : Str), c ≠ '\\' := by
        intro c hc
        rcases List.mem_append.mp hc with hc1 | hc2
        · exact hd c hc1
        · rcases List.mem_cons.mp hc2 with rfl | hc3
          · simp
          · exact hnb c hc3
      have hnn : normalizePath (d ++ '/' :: n) = d ++ '/' :: n := hnorm _ hne2 hnbc hlast2
      have hroot : (d ++ '/' :: n : Str) ≠ ['/'] := by
        intro hcon
        have hlen := congrArg List.length hcon
        simp at hlen
        have : d.length ≥ 1 := by
          rcases d with _ | ⟨x, t⟩
          · exact absurd rfl hdnil
          · simp
        omega
      unfold splitPath
      rw [hnn]
      simp only [hroot, if_false]
      have hrev : (d ++ '/' :: n : Str).reverse = n.reverse ++ '/' :: d.reverse := by
        simp
      rw [hrev]
      rw [takeWhile_append_of_all _ _ _ _
        (fun x hx => by simp only [decide_eq_true_eq]; intro hcon;
                        exact hs (by simpa using hcon ▸ (List.mem_reverse.mp hx)))
        (by simp)]
      rw [show (n.reverse).length = n.length by simp, show n.length = (n.reverse).length by simp,
        List.drop_left]
      have hdrne : ('/' :: d.reverse : Str) ≠ [] := by simp
      have hdrroot : ('/' :: d.reverse : Str) ≠ ['/'] := by
        intro hcon
        exact hdnil (by simpa using hcon)
      simp [hdrne, hdrroot]

end MockFsM

namespace MockFsM

open MockHttp (Str str)

theorem append_prefix_cancel {α : Type} (a b c : List α) (h : a ++ b <+: a ++ c) :
    b <+: c := by
  induction a with
  | nil => simpa using h
  | cons x t ih =>
    simp only [List.cons_append, List.cons_prefix_cons] at h
    exact ih h.2

theorem append_slash_cases (a b : Str) (h : a ++ ['/'] <+: b ++ ['/']) :
    a = b ∨ a ++ ['/'] <+: b := by
  have hlen : a.length ≤ b.length := by
    have := h.length_le
    simpa using this
  rcases Nat.eq_or_lt_of_le hlen with heq | hlt
  · left
    have hx := h.eq_of_length (by simp [heq])
    exact (List.append_inj' hx (by simp)).1
  · right
    obtain ⟨t, ht⟩ := h
    rcases t.eq_nil_or_concat with rfl | ⟨t2, z, rfl⟩
    · exfalso
      have := congrArg List.length ht
      simp at this
      omega
    · have ht2 : (a ++ ['/'] ++ t2) ++ [z] = b ++ ['/'] := by
        simpa [List.concat_eq_append, List.append_assoc] using ht
      have hinj := List.append_inj' ht2 (by simp)
      exact ⟨t2, by simpa using hinj.1⟩

theorem filter_eq_singleton_of_nodup {α : Type} (l : List α) (hnd : l.Nodup) (e : α)
    (he : e ∈ l) (p : α → Bool) (hp : ∀ f ∈ l, (p f = true ↔ f = e)) :
    l.filter p = [e] := by
  induction l with
  | nil => cases he
  | cons a t ih =>
    rcases List.mem_cons.mp he with rfl | het
    · have hpa : p e = true := (hp e (by simp)).mpr rfl
      have hnot : ∀ f ∈ t, ¬ p f = true := by
        intro f hf hpf
        have hfe := (hp f (by simp [hf])).mp hpf
        subst hfe
        exact (List.nodup_cons.mp hnd).1 hf
      rw [List.filter_cons_of_pos hpa, List.filter_eq_nil_iff.mpr hnot]
    · have hae : a ≠ e := by
        rintro rfl
        exact (List.nodup_cons.mp hnd).1 het
      have hpa : ¬ p a = true := fun hpa => hae ((hp a (by simp)).mp hpa)
      rw [List.filter_cons_of_neg hpa]
      exact ih (List.nodup_cons.mp hnd).2 het fun f hf => hp f (by simp [hf])

theorem splitPath_snd_of_clean (q : Str) (h : cleanPath q = true) :
    (splitPath q).2 ≠ [] ∧ '/' ∉ (splitPath q).2 ∧ '\\' ∉ (splitPath q).2 := by
  have hn := normalizePath_of_clean q h
  have hnb := clean_no_backslash q h
  simp only [cleanPath, Bool.and_eq_true, decide_eq_true_eq, List.all_eq_true] at h
  obtain ⟨h1, h2, h3, h4, h5⟩ := h
  have hsnd : (splitPath q).2 = (q.reverse.takeWhile (fun x => decide ¬(x = '/'))).reverse := by
    simp [splitPath, hn, h2]
  rw [hsnd]
  refine ⟨?_, ?_, ?_⟩
  · rcases hqr : q.reverse with _ | ⟨c, t⟩
    · exfalso
      have : q = [] := List.reverse_eq_nil_iff.mp hqr
      rw [this] at h1
      simp at h1
    · have hcl : q.getLast? = some c := by
        rw [← List.head?_reverse, hqr]
        rfl
      have hcne : c ≠ '/' := by
        intro hcon
        rw [hcon] at hcl
        exact h3 hcl
      simp [List.takeWhile_cons, hcne]
  · intro hx
    have := List.mem_takeWhile_imp (List.mem_reverse.mp hx)
    simp at this
  · intro hx
    have hmem := (List.takeWhile_prefix _).subset (List.mem_reverse.mp hx)
    exact hnb '\\' (List.mem_reverse.mp hmem) rfl

theorem splitPath_fst_of_clean (q : Str) (h : cleanPath q = true) :
    (splitPath q).1.length < q.length ∧ (splitPath q).1 <+: q ∧
      ∀ c ∈ (splitPath q).1, c ≠ '\\' := by
  have hjoin := joinPath_splitPath q (normalizePath_of_clean q h)
    (by simp only [cleanPath, Bool.and_eq_true, decide_eq_true_eq] at h; exact h.2.1)
    (by simp only [cleanPath, Bool.and_eq_true, decide_eq_true_eq] at h; exact h.2.2.2.1)
  obtain ⟨hn1, _, _⟩ := splitPath_snd_of_clean q h
  have hnb := clean_no_backslash q h
  have hqne : q ≠ [] := by
    intro hcon
    simp only [cleanPath, Bool.and_eq_true, decide_eq_true_eq] at h
    rw [hcon] at h
    simp at h
  by_cases hdnil : (splitPath q).1 = []
  · refine ⟨?_, ?_, ?_⟩
    · rw [hdnil]
      simp
      rcases q with _ | _
      · exact absurd rfl hqne
      · simp
    · rw [hdnil]; exact List.nil_prefix
    · rw [hdnil]; simp
  · by_cases hdroot : (splitPath q).1 = ['/']
    · rw [hdroot] at hjoin ⊢
      simp only [joinPath, if_neg (by simp : (['/'] : Str) ≠ []), if_pos rfl] at hjoin
      refine ⟨?_, ?_, ?_⟩
      · rw [← hjoin]
        simp
        rcases hs2 : (splitPath q).2 with _ | _
        · exact absurd hs2 hn1
        · simp
      · exact ⟨(splitPath q).2, hjoin⟩
      · simp
    · simp only [joinPath, hdnil, hdroot, if_false] at hjoin
      refine ⟨?_, ?_, ?_⟩
      · conv_rhs => rw [← hjoin]
        simp
      · exact ⟨'/' :: (splitPath q).2, hjoin⟩
      · intro c hc
        exact hnb c (by rw [← hjoin]; exact List.mem_append.mpr (Or.inl hc))

end MockFsM

namespace MockFsM

open MockHttp (Str str)

/-- An entity as the library creates it: either the root document, or a
document whose name is a nonempty separator-free segment and whose parent
path contains no backslash. -/
def wfEntity (e : Entity) : Prop :=
  (e.path = [] ∧ e.name = ['/']) ∨
  ((∀ c ∈ e.path, c ≠ '\\') ∧ e.name ≠ [] ∧ '/' ∉ e.name ∧ '\\' ∉ e.name)

instance (e : Entity) : Decidable (wfEntity e) := by
  unfold wfEntity
  infer_instance

/-- The per-entity effect of `_moveEntity`'s three passes, as a single
function on the original entity. -/
def relocG (old new : Str) (e : Entity) : Entity :=
  if e.path = (splitPath old).1 ∧ e.name = (splitPath old).2 then
    { e with path := (splitPath new).1, name := (splitPath new).2 }
  else if e.path = old then { e with path := new }
  else if (old ++ ['/']).isPrefixOf e.path then
    { e with path := new ++ e.path.drop old.length }
  else e

theorem descendant_path_cases (old : Str) (hco : cleanPath old = true)
    (e : Entity) (hwf : wfEntity e) (hdesc : (old ++ ['/']) <+: e.fullPath) :
    e.path = old ∨ (old ++ ['/']) <+: e.path := by
  have hhead : old.head? = some '/' := by
    simp only [cleanPath, Bool.and_eq_true, decide_eq_true_eq] at hco
    exact hco.1
  have holdne : old ≠ [] := by
    intro hcon
    rw [hcon] at hhead
    simp at hhead
  rcases hwf with ⟨hp0, hn0⟩ | ⟨hpb, hne, hns, hnb⟩
  · exfalso
    rw [Entity.fullPath, hp0, hn0] at hdesc
    have hj : joinPath [] ['/'] = (['/'] : Str) := by simp [joinPath]
    rw [hj] at hdesc
    obtain ⟨t, ht⟩ := hdesc
    have hlen := congrArg List.length ht
    simp at hlen
    have holdlen : old.length ≥ 1 := by
      rcases old with _ | _
      · exact absurd rfl holdne
      · simp
    omega
  · by_cases hpe : e.path = []
    · exfalso
      rw [Entity.fullPath, hpe] at hdesc
      have hj : joinPath [] e.name = e.name := by simp [joinPath]
      rw [hj] at hdesc
      exact hns (hdesc.subset (by simp))
    · by_cases hproot : e.path = ['/']
      · exfalso
        rw [Entity.fullPath, hproot] at hdesc
        have hj : joinPath ['/'] e.name = '/' :: e.name := by simp [joinPath]
        rw [hj] at hdesc
        rcases hold : old with _ | ⟨oc, o₂⟩
        · exact holdne hold
        · have hoc : oc = '/' := by
            rw [hold] at hhead
            simpa using hhead
          rw [hold, hoc] at hdesc
          simp only [List.cons_append, List.cons_prefix_cons, true_and] at hdesc
          exact hns (hdesc.subset (by simp))
      · have hfp : e.fullPath = (e.path ++ ['/']) ++ e.name := by
          rw [Entity.fullPath]
          simp [joinPath, hpe, hproot]
        have hp1 : e.path ++ ['/'] <+: e.fullPath := by
          rw [hfp]
          exact List.prefix_append _ _
        rcases List.prefix_or_prefix_of_prefix hdesc hp1 with hc | hc
        · rcases append_slash_cases _ _ hc with heq | hc2
          · exact Or.inl heq.symm
          · exact Or.inr hc2
        · rcases append_slash_cases _ _ hc with heq | hc2
          · exact Or.inl heq
          · exfalso
            obtain ⟨o₃, ho₃⟩ := hc2
            apply hns
            rw [← ho₃, hfp] at hdesc
            have hcan : o₃ ++ ['/'] <+: e.name := by
              apply append_prefix_cancel (e.path ++ ['/']) _ _
              rw [List.append_assoc] at hdesc
              exact hdesc
            exact hcan.subset (by simp)

theorem comp_eq_relocG (old new : Str) (hco : cleanPath old = true)
    (hcn : cleanPath new = true) (hsep1 : ¬((old ++ ['/']) <+: new)) (e : Entity) :
    (fun f : Entity => if (old ++ ['/']).isPrefixOf f.path then
        { f with path := new ++ f.path.drop old.length } else f)
      ((fun f : Entity => if f.path = old then { f with path := new } else f)
        ((fun f : Entity => if f.path = (splitPath old).1 ∧ f.name = (splitPath old).2 then
            { f with path := (splitPath new).1, name := (splitPath new).2 } else f) e))
    = relocG old new e := by
  obtain ⟨hndlt, hndpre, _⟩ := splitPath_fst_of_clean new hcn
  obtain ⟨hodlt, _, _⟩ := splitPath_fst_of_clean old hco
  obtain ⟨hnn1, _, _⟩ := splitPath_snd_of_clean new hcn
  have hjoin_new := joinPath_splitPath new (normalizePath_of_clean new hcn)
    (by simp only [cleanPath, Bool.and_eq_true, decide_eq_true_eq] at hcn; exact hcn.2.1)
    (by simp only [cleanPath, Bool.and_eq_true, decide_eq_true_eq] at hcn; exact hcn.2.2.2.1)
  have holdne : old ≠ [] := by
    simp only [cleanPath, Bool.and_eq_true, decide_eq_true_eq] at hco
    intro hcon
    rw [hcon] at hco
    simp at hco
  have holdroot : old ≠ ['/'] := by
    simp only [cleanPath, Bool.and_eq_true, decide_eq_true_eq] at hco
    exact hco.2.1
  have hndold : (splitPath new).1 ≠ old := by
    intro hcon
    apply hsep1
    rw [← hjoin_new]
    simp only [joinPath, hcon, holdne, holdroot, if_false]
    exact ⟨(splitPath new).2, by simp⟩
  have hndnd : ¬ (old ++ ['/']).isPrefixOf (splitPath new).1 := by
    intro hcon
    exact hsep1 ((List.isPrefixOf_iff_prefix.mp hcon).trans hndpre)
  have hnewnd : ¬ (old ++ ['/']).isPrefixOf new := by
    intro hcon
    exact hsep1 (List.isPrefixOf_iff_prefix.mp hcon)
  have hodne : ¬(old = (splitPath old).1) := by
    intro hcon
    have := congrArg List.length hcon
    omega
  by_cases hc1 : e.path = (splitPath old).1 ∧ e.name = (splitPath old).2
  · simp [relocG, hc1, hndold, hndnd]
  · by_cases hc2 : e.path = old
    · simp [relocG, hc1, hc2, hnewnd, hodne]
    · by_cases hc3 : (old ++ ['/']).isPrefixOf e.path
      · simp [relocG, hc1, hc2, hc3]
      · simp [relocG, hc1, hc2, hc3]

end MockFsM

namespace MockFsM

open MockHttp (Str str)

theorem relocG_key_cases (old new : Str) (f : Entity) :
    (f.path = (splitPath old).1 ∧ f.name = (splitPath old).2 ∧
      relocG old new f = { f with path := (splitPath new).1, name := (splitPath new).2 }) ∨
    (¬(f.path = (splitPath old).1 ∧ f.name = (splitPath old).2) ∧ f.path = old ∧
      relocG old new f = { f with path := new }) ∨
    (¬(f.path = (splitPath old).1 ∧ f.name = (splitPath old).2) ∧ f.path ≠ old ∧
      (∃ r, f.path = old ++ '/' :: r ∧
        relocG old new f = { f with path := new ++ '/' :: r })) ∨
    (¬(f.path = (splitPath old).1 ∧ f.name = (splitPath old).2) ∧ f.path ≠ old ∧
      ¬((old ++ ['/']) <+: f.path) ∧ relocG old new f = f) := by
  by_cases d1 : f.path = (splitPath old).1 ∧ f.name = (splitPath old).2
  · exact Or.inl ⟨d1.1, d1.2, by simp [relocG, d1]⟩
  · by_cases d2 : f.path = old
    · refine Or.inr (Or.inl ⟨d1, d2, ?_⟩)
      unfold relocG
      rw [if_neg d1, if_pos d2]
    · by_cases d3 : (old ++ ['/']).isPrefixOf f.path
      · obtain ⟨r, hr⟩ := List.isPrefixOf_iff_prefix.mp d3
        have hr2 : f.path = old ++ '/' :: r := by rw [← hr]; simp
        have hdrop : f.path.drop old.length = '/' :: r := by
          rw [hr2]
          exact List.drop_left old ('/' :: r)
        refine Or.inr (Or.inr (Or.inl ⟨d1, d2, r, hr2, ?_⟩))
        unfold relocG
        rw [if_neg d1, if_neg d2, if_pos d3, hdrop]
      · refine Or.inr (Or.inr (Or.inr ⟨d1, d2,
          fun hc => d3 (List.isPrefixOf_iff_prefix.mpr hc), ?_⟩))
        unfold relocG
        rw [if_neg d1, if_neg d2, if_neg d3]

theorem existsSync_of_nil (fs : MockFs) (q a b : Str) (hq : splitPath q = (a, b))
    (hnil : findMatches fs a b = []) : existsSync fs q = .ok false := by
  simp [existsSync, getEntityByPath, hq, findEntityKey, hnil, Except.map]

theorem existsSync_of_one (fs : MockFs) (q a b : Str) (x : Entity)
    (hq : splitPath q = (a, b)) (hone : findMatches fs a b = [x]) :
    existsSync fs q = .ok true := by
  simp [existsSync, getEntityByPath, hq, findEntityKey, hone, Except.map]

theorem getFileContent_of_one (fs : MockFs) (q a b : Str) (x : Entity)
    (hq : splitPath q = (a, b)) (hone : findMatches fs a b = [x])
    (hdir : x.stats.isDir = false) : getFileContent fs q = .ok x.content := by
  simp [getFileContent, getFileByPath, getEntityByPath, hq, findEntityKey, hone, hdir,
    Except.map, Bind.bind, Except.bind]

end MockFsM

namespace MockFsM

open MockHttp (Str str)

theorem renameSync_reduces (fs : MockFs) (old new : Str) (srcEnt : Entity)
    (hco : cleanPath old = true) (hcn : cleanPath new = true)
    (hsep1 : ¬((old ++ ['/']) <+: new))
    (hsrc : findMatches fs (splitPath old).1 (splitPath old).2 = [srcEnt])
    (hnew : findMatches fs (splitPath new).1 (splitPath new).2 = [])
    (hpdir : existsSync fs (splitPath new).1 = .ok true) :
    renameSync fs old new =
      .ok { fs with entities := fs.entities.map (relocG old new) } := by
  have hjoin_old := joinPath_splitPath old (normalizePath_of_clean old hco)
    (by simp only [cleanPath, Bool.and_eq_true, decide_eq_true_eq] at hco; exact hco.2.1)
    (by simp only [cleanPath, Bool.and_eq_true, decide_eq_true_eq] at hco; exact hco.2.2.2.1)
  have h0 : srcEnt ∈ findMatches fs (splitPath old).1 (splitPath old).2 := by
    rw [hsrc]; exact List.mem_singleton_self _
  have hsrckey := (List.mem_filter.mp h0).2
  simp only [decide_eq_true_eq] at hsrckey
  have hsrcfull : srcEnt.fullPath = old := by
    rw [Entity.fullPath, hsrckey.1, hsrckey.2, hjoin_old]
  have h1 : getEntityByPath fs old = .ok (some srcEnt) := by
    simp [getEntityByPath, findEntityKey, hsrc]
  have h2 : existsSync fs new = .ok false := existsSync_of_nil fs new _ _ rfl hnew
  rw [renameSync, h1]
  simp only [Bind.bind, Except.bind, h2, hsrcfull]
  simp only [if_neg (by simp : ¬(false = true))]
  rw [moveEntity, normalizePath_of_clean old hco, normalizePath_of_clean new hcn]
  simp only [Bind.bind, Except.bind, hpdir]
  simp only [not_true, if_false, List.map_map]
  congr 1
  congr 1
  apply List.map_congr_left
  intro e _
  exact comp_eq_relocG old new hco hcn hsep1 e

end MockFsM

namespace MockFsM

open MockHttp (Str str)

/-- **C7**: on a well-formed entity table (`wfEntity` entries, unique
`(path, name)` keys), renaming a directory `old` to `new` (clean absolute
paths, `new` free and outside the `old` subtree and vice versa, parent
directory of `new` present) relocates the whole subtree preserving relative
structure: `renameSync` succeeds, the old full path no longer resolves, the
new one does, and every descendant's old full path stops resolving while the
corresponding path under `new` resolves, with file contents preserved. -/
theorem rename_relocates_subtree (fs : MockFs) (old new : Str) (srcEnt : Entity)
    (hwf : ∀ e ∈ fs.entities, wfEntity e)
    (hnodup : (fs.entities.map fun e => (e.path, e.name)).Nodup)
    (hco : cleanPath old = true) (hcn : cleanPath new = true)
    (hne : old ≠ new)
    (hsep1 : ¬((old ++ ['/']) <+: new))
    (hsep2 : ¬((new ++ ['/']) <+: old))
    (hsrc : findMatches fs (splitPath old).1 (splitPath old).2 = [srcEnt])
    (hdir : srcEnt.stats.isDir = true)
    (hnew : findMatches fs (splitPath new).1 (splitPath new).2 = [])
    (hnewtree : ∀ e ∈ fs.entities, e.path ≠ new ∧ ¬((new ++ ['/']) <+: e.path))
    (hpdir : existsSync fs (splitPath new).1 = .ok true) :
    renameSync fs old new =
      .ok { fs with entities := fs.entities.map (relocG old new) } ∧
    existsSync { fs with entities := fs.entities.map (relocG old new) } old = .ok false ∧
    existsSync { fs with entities := fs.entities.map (relocG old new) } new = .ok true ∧
    ∀ e ∈ fs.entities, (old ++ ['/']) <+: e.fullPath →
      existsSync { fs with entities := fs.entities.map (relocG old new) } e.fullPath
        = .ok false ∧
      existsSync { fs with entities := fs.entities.map (relocG old new) }
        (new ++ e.fullPath.drop old.length) = .ok true ∧
      (e.stats.isDir = false →
        getFileContent { fs with entities := fs.entities.map (relocG old new) }
          (new ++ e.fullPath.drop old.length) = .ok e.content) := by
  have hcoU := hco
  simp only [cleanPath, Bool.and_eq_true, decide_eq_true_eq, List.all_eq_true] at hcoU
  obtain ⟨hco1, hco2, hco3, hco4, _⟩ := hcoU
  have hcnU := hcn
  simp only [cleanPath, Bool.and_eq_true, decide_eq_true_eq, List.all_eq_true] at hcnU
  obtain ⟨hcn1, hcn2, hcn3, hcn4, _⟩ := hcnU
  have holdne : old ≠ [] := by intro hcon; rw [hcon] at hco1; simp at hco1
  have hnewne : new ≠ [] := by intro hcon; rw [hcon] at hcn1; simp at hcn1
  have holdpos : 0 < old.length := List.length_pos.mpr holdne
  have hnewpos : 0 < new.length := List.length_pos.mpr hnewne
  have hjoin_old := joinPath_splitPath old (normalizePath_of_clean old hco) hco2 hco4
  have hjoin_new := joinPath_splitPath new (normalizePath_of_clean new hcn) hcn2 hcn4
  obtain ⟨hodlt, hodpre, _⟩ := splitPath_fst_of_clean old hco
  obtain ⟨hndlt, hndpre, _⟩ := splitPath_fst_of_clean new hcn
  obtain ⟨hon1, hon2, hon3⟩ := splitPath_snd_of_clean old hco
  obtain ⟨hnn1, hnn2, hnn3⟩ := splitPath_snd_of_clean new hcn
  have h0 : srcEnt ∈ findMatches fs (splitPath old).1 (splitPath old).2 := by
    rw [hsrc]; exact List.mem_singleton_self _
  have hsrcmem : srcEnt ∈ fs.entities := List.mem_of_mem_filter h0
  have hsrckey := (List.mem_filter.mp h0).2
  simp only [decide_eq_true_eq] at hsrckey
  have hinj : ∀ ⦃x : Entity⦄, x ∈ fs.entities → ∀ ⦃y : Entity⦄, y ∈ fs.entities →
      (x.path, x.name) = (y.path, y.name) → x = y := List.inj_on_of_nodup_map hnodup
  have hndl : fs.entities.Nodup := List.Nodup.of_map _ hnodup
  have hnomatch_new : ∀ f ∈ fs.entities,
      ¬(f.path = (splitPath new).1 ∧ f.name = (splitPath new).2) := by
    intro f hf hcon
    have hmem : f ∈ findMatches fs (splitPath new).1 (splitPath new).2 :=
      List.mem_filter.mpr ⟨hf, by simp [hcon.1, hcon.2]⟩
    rw [hnew] at hmem
    cases hmem
  have huni_old : ∀ f ∈ fs.entities,
      (f.path = (splitPath old).1 ∧ f.name = (splitPath old).2) → f = srcEnt := by
    intro f hf hcon
    have hmem : f ∈ findMatches fs (splitPath old).1 (splitPath old).2 :=
      List.mem_filter.mpr ⟨hf, by simp [hcon.1, hcon.2]⟩
    rw [hsrc] at hmem
    simpa using hmem
  have hjoin_shape : ∀ d : Str, d ≠ [] → d ≠ ['/'] → ∀ n : Str,
      joinPath d n = d ++ '/' :: n := by
    intro d h1 h2 n
    simp [joinPath, h1, h2]
  refine ⟨renameSync_reduces fs old new srcEnt hco hcn hsep1 hsrc hnew hpdir, ?_, ?_, ?_⟩
  · -- the old path no longer resolves
    refine existsSync_of_nil _ old (splitPath old).1 (splitPath old).2 rfl ?_
    simp only [findMatches]
    refine List.filter_eq_nil_iff.mpr ?_
    intro x hx
    obtain ⟨f, hf, rfl⟩ := List.mem_map.mp hx
    rcases relocG_key_cases old new f with ⟨hk1, hk2, hgf⟩ | ⟨hn1, hk, hgf⟩ |
      ⟨hn1, hn2, r, hr, hgf⟩ | ⟨hn1, hn2, hn3, hgf⟩
    · rw [hgf]
      simp only [decide_eq_true_eq, not_and]
      intro ha hb
      exact hne (by rw [← hjoin_old, ← ha, ← hb, hjoin_new])
    · rw [hgf]
      simp only [decide_eq_true_eq, not_and]
      intro ha _
      have hpn := (hnewtree srcEnt hsrcmem).1
      rw [hsrckey.1] at hpn
      exact hpn ha.symm
    · rw [hgf]
      simp only [decide_eq_true_eq, not_and]
      intro ha _
      refine hsep2 (List.IsPrefix.trans ⟨r, by simp⟩ (ha.symm ▸ hodpre))
    · rw [hgf]
      simp only [decide_eq_true_eq, not_and]
      intro ha hb
      exact absurd ⟨ha, hb⟩ hn1
  · -- the new path resolves
    refine existsSync_of_one _ new (splitPath new).1 (splitPath new).2
      (relocG old new srcEnt) rfl ?_
    simp only [findMatches]
    rw [List.filter_map]
    rw [filter_eq_singleton_of_nodup fs.entities hndl srcEnt hsrcmem _ ?_]
    · simp
    · intro f hf
      constructor
      · intro hpf
        simp only [Function.comp, decide_eq_true_eq] at hpf
        rcases relocG_key_cases old new f with ⟨hk1, hk2, hgf⟩ | ⟨hn1, hk, hgf⟩ |
          ⟨hn1, hn2, r, hr, hgf⟩ | ⟨hn1, hn2, hn3, hgf⟩
        · exact huni_old f hf ⟨hk1, hk2⟩
        · rw [hgf] at hpf
          dsimp at hpf
          exfalso
          have hL := congrArg List.length hpf.1
          omega
        · rw [hgf] at hpf
          dsimp at hpf
          exfalso
          have hL := congrArg List.length hpf.1
          simp at hL
          omega
        · rw [hgf] at hpf
          exact absurd hpf (hnomatch_new f hf)
      · intro hfe
        have hge : relocG old new srcEnt =
            { srcEnt with path := (splitPath new).1, name := (splitPath new).2 } := by
          unfold relocG
          rw [if_pos hsrckey]
        rw [hfe]
        simp [Function.comp, hge]
  · -- every descendant is relocated
    intro e hel hdesc
    have hwfe := hwf e hel
    rcases hwfe with ⟨hp0, hn0⟩ | ⟨hpb, hnen, hns, hnb⟩
    · exfalso
      rw [Entity.fullPath, hp0, hn0] at hdesc
      have hj : joinPath [] ['/'] = (['/'] : Str) := by simp [joinPath]
      rw [hj] at hdesc
      obtain ⟨t, ht⟩ := hdesc
      have hlen := congrArg List.length ht
      simp at hlen
      omega
    · have hkey_e : splitPath e.fullPath = (e.path, e.name) :=
        splitPath_join e.path e.name hpb hnen hns hnb
      have hclass := descendant_path_cases old hco e (Or.inr ⟨hpb, hnen, hns, hnb⟩) hdesc
      have hD1 : existsSync { fs with entities := fs.entities.map (relocG old new) }
          e.fullPath = .ok false := by
        refine existsSync_of_nil _ _ e.path e.name hkey_e ?_
        simp only [findMatches]
        refine List.filter_eq_nil_iff.mpr ?_
        intro x hx
        obtain ⟨f, hf, rfl⟩ := List.mem_map.mp hx
        rcases relocG_key_cases old new f with ⟨hk1, hk2, hgf⟩ | ⟨hn1, hk, hgf⟩ |
          ⟨hn1, hn2, r, hr, hgf⟩ | ⟨hn1, hn2, hn3, hgf⟩
        · rw [hgf]
          simp only [decide_eq_true_eq, not_and]
          intro ha hb
          exact hnomatch_new e hel ⟨ha.symm, hb.symm⟩
        · rw [hgf]
          simp only [decide_eq_true_eq, not_and]
          intro ha _
          exact (hnewtree e hel).1 ha.symm
        · rw [hgf]
          simp only [decide_eq_true_eq, not_and]
          intro ha _
          refine (hnewtree e hel).2 ?_
          rw [← ha]
          exact ⟨r, by simp⟩
        · rw [hgf]
          simp only [decide_eq_true_eq, not_and]
          intro ha hb
          have hfe : f = e := hinj hf hel (by rw [ha, hb])
          subst hfe
          rcases hclass with hcase | hcase
          · exact hn2 hcase
          · exact hn3 hcase
      rcases hclass with hcase | hcase
      · have hne1 : ¬(e.path = (splitPath old).1 ∧ e.name = (splitPath old).2) := by
          intro hcon
          have hoo : old = (splitPath old).1 := hcase ▸ hcon.1
          have hL := congrArg List.length hoo
          omega
        have hge : relocG old new e = { e with path := new } := by
          unfold relocG
          rw [if_neg hne1, if_pos hcase]
        have hfp : e.fullPath = old ++ '/' :: e.name := by
          rw [Entity.fullPath, hcase, hjoin_shape old holdne hco2]
        have hdrop : List.drop old.length e.fullPath = '/' :: e.name := by
          rw [hfp]
          exact List.drop_left old _
        have hq' : new ++ List.drop old.length e.fullPath = joinPath new e.name := by
          rw [hdrop, hjoin_shape new hnewne hcn2]
        have hkey_q' : splitPath (new ++ List.drop old.length e.fullPath) = (new, e.name) := by
          rw [hq']
          exact splitPath_join new e.name (clean_no_backslash new hcn) hnen hns hnb
        have hsing : findMatches { fs with entities := fs.entities.map (relocG old new) }
            new e.name = [relocG old new e] := by
          simp only [findMatches]
          rw [List.filter_map]
          rw [filter_eq_singleton_of_nodup fs.entities hndl e hel _ ?_]
          · simp
          · intro f hf
            constructor
            · intro hpf
              simp only [Function.comp, decide_eq_true_eq] at hpf
              rcases relocG_key_cases old new f with ⟨hk1, hk2, hgf⟩ | ⟨hn1f, hkf, hgf⟩ |
                ⟨hn1f, hn2f, rf, hrf, hgf⟩ | ⟨hn1f, hn2f, hn3f, hgf⟩
              · rw [hgf] at hpf
                dsimp at hpf
                exfalso
                have hL := congrArg List.length hpf.1
                omega
              · rw [hgf] at hpf
                dsimp at hpf
                exact hinj hf hel (by rw [hkf, hcase, hpf.2])
              · rw [hgf] at hpf
                dsimp at hpf
                exfalso
                have hL := congrArg List.length hpf.1
                simp at hL
              · rw [hgf] at hpf
                exfalso
                exact (hnewtree f hf).1 hpf.1
            · intro hfe
              rw [hfe]
              simp [Function.comp, hge]
        refine ⟨hD1, ?_, ?_⟩
        · exact existsSync_of_one _ _ new e.name (relocG old new e) hkey_q' hsing
        · intro hdf
          have h3 := getFileContent_of_one _ (new ++ List.drop old.length e.fullPath)
            new e.name (relocG old new e) hkey_q' hsing (by rw [hge]; exact hdf)
          rw [hge] at h3
          exact h3
      · obtain ⟨r0, hr0⟩ := hcase
        have hr : e.path = old ++ '/' :: r0 := by rw [← hr0]; simp
        have hplen : e.path.length = old.length + 1 + r0.length := by rw [hr]; simp; omega
        have hpne : e.path ≠ [] := by rw [hr]; simp
        have hproot2 : e.path ≠ ['/'] := by
          intro hcon
          have hL := congrArg List.length hcon
          rw [hplen] at hL
          simp at hL
          omega
        have hne1 : ¬(e.path = (splitPath old).1 ∧ e.name = (splitPath old).2) := by
          intro hcon
          have hL := congrArg List.length hcon.1
          omega
        have hne2 : e.path ≠ old := by
          intro hcon
          have hL := congrArg List.length hcon
          omega
        have hpre3 : (old ++ ['/']).isPrefixOf e.path = true :=
          List.isPrefixOf_iff_prefix.mpr ⟨r0, hr0⟩
        have hdropP : List.drop old.length e.path = '/' :: r0 := by
          rw [hr]
          exact List.drop_left old _
        have hge : relocG old new e = { e with path := new ++ '/' :: r0 } := by
          unfold relocG
          rw [if_neg hne1, if_neg hne2, if_pos hpre3, hdropP]
        have hfp : e.fullPath = e.path ++ '/' :: e.name := by
          rw [Entity.fullPath, hjoin_shape e.path hpne hproot2]
        have hfp2 : e.fullPath = old ++ '/' :: (r0 ++ '/' :: e.name) := by
          rw [hfp, hr]
          simp
        have hdrop : List.drop old.length e.fullPath = '/' :: (r0 ++ '/' :: e.name) := by
          rw [hfp2]
          exact List.drop_left old _
        have hndne : (new ++ '/' :: r0 : Str) ≠ [] := by simp
        have hndroot : (new ++ '/' :: r0 : Str) ≠ ['/'] := by
          intro hcon
          have hL := congrArg List.length hcon
          simp at hL
          omega
        have hq' : new ++ List.drop old.length e.fullPath =
            joinPath (new ++ '/' :: r0) e.name := by
          rw [hdrop, hjoin_shape _ hndne hndroot]
          simp
        have hnbd : ∀ c ∈ (new ++ '/' :: r0 : Str), c ≠ '\\' := by
          intro c hc
          rcases List.mem_append.mp hc with h | h
          · exact clean_no_backslash new hcn c h
          · rcases List.mem_cons.mp h with rfl | h2
            · simp
            · refine hpb c ?_
              rw [hr]
              exact List.mem_append.mpr (Or.inr (List.mem_cons.mpr (Or.inr h2)))
        have hkey_q' : splitPath (new ++ List.drop old.length e.fullPath) =
            (new ++ '/' :: r0, e.name) := by
          rw [hq']
          exact splitPath_join _ e.name hnbd hnen hns hnb
        have hsing : findMatches { fs with entities := fs.entities.map (relocG old new) }
            (new ++ '/' :: r0) e.name = [relocG old new e] := by
          simp only [findMatches]
          rw [List.filter_map]
          rw [filter_eq_singleton_of_nodup fs.entities hndl e hel _ ?_]
          · simp
          · intro f hf
            constructor
            · intro hpf
              simp only [Function.comp, decide_eq_true_eq] at hpf
              rcases relocG_key_cases old new f with ⟨hk1, hk2, hgf⟩ | ⟨hn1f, hkf, hgf⟩ |
                ⟨hn1f, hn2f, rf, hrf, hgf⟩ | ⟨hn1f, hn2f, hn3f, hgf⟩
              · rw [hgf] at hpf
                dsimp at hpf
                exfalso
                have hL := congrArg List.length hpf.1
                simp at hL
                omega
              · rw [hgf] at hpf
                dsimp at hpf
                exfalso
                have hL := congrArg List.length hpf.1
                simp at hL
              · rw [hgf] at hpf
                dsimp at hpf
                have hrr : rf = r0 := by
                  have hcc := List.append_cancel_left hpf.1
                  simpa using hcc
                refine hinj hf hel ?_
                rw [hrf, hr, hrr, hpf.2]
              · rw [hgf] at hpf
                exfalso
                refine (hnewtree f hf).2 ?_
                rw [hpf.1]
                exact ⟨r0, by simp⟩
            · intro hfe
              rw [hfe]
              simp [Function.comp, hge]
        refine ⟨hD1, ?_, ?_⟩
        · exact existsSync_of_one _ _ _ e.name (relocG old new e) hkey_q' hsing
        · intro hdf
          have h3 := getFileContent_of_one _ (new ++ List.drop old.length e.fullPath)
            _ e.name (relocG old new e) hkey_q' hsing (by rw [hge]; exact hdf)
          rw [hge] at h3
          exact h3

end MockFsM

namespace MockFsM

open MockHttp (Str str)

/-- `resetFileSystem()` followed by `addFile('/a/b.txt', {}, 'hi')`. -/
def fsAB : MockFs := addFileD initFs (str "/a/b.txt") (str "hi")

theorem rename_relocates_subtree_witness :
    ∃ fsR, renameSync fsAB (str "/a") (str "/z") = .ok fsR ∧
      existsSync fsR (str "/a") = .ok false ∧
      existsSync fsR (str "/z") = .ok true ∧
      existsSync fsR (str "/a/b.txt") = .ok false ∧
      existsSync fsR (str "/z/b.txt") = .ok true ∧
      getFileContent fsR (str "/z/b.txt") = .ok (str "hi") := by
  have H := rename_relocates_subtree fsAB (str "/a") (str "/z")
    ⟨2, ['/'], ['a'], ⟨0, true⟩, []⟩
    (by decide) (by decide) (by decide) (by decide) (by decide) (by decide) (by decide)
    (by decide) (by decide) (by decide) (by decide) (by decide)
  obtain ⟨h1, h2, h3, h4⟩ := H
  have hd := h4 ⟨3, str "/a", str "b.txt", ⟨2, false⟩, str "hi"⟩ (by decide) (by decide)
  exact ⟨_, h1, h2, h3, hd.1, hd.2.1, hd.2.2 (by decide)⟩

end MockFsM

namespace MockFsM

open MockHttp (Str str)

end MockFsM

namespace MockFsM

open MockHttp (Str str)

theorem splitPath_root_key (p : Str) (h : splitPath p = ([], ['/'])) :
    normalizePath p = ['/'] := by
  by_cases hroot : normalizePath p = ['/']
  · exact hroot
  · exfalso
    have hsnd : (splitPath p).2 =
        ((normalizePath p).reverse.takeWhile (fun x => decide ¬(x = '/'))).reverse := by
      simp [splitPath, hroot]
    rw [h] at hsnd
    have hmem : '/' ∈ (normalizePath p).reverse.takeWhile (fun x => decide ¬(x = '/')) := by
      rw [← List.mem_reverse, ← hsnd]
      simp
    have := List.mem_takeWhile_imp hmem
    simp at this

theorem removeEntity_keeps_root (fs : MockFs) (q : Str) (r0 : Entity)
    (hrm : findMatches fs [] ['/'] = [r0])
    (hqn : normalizePath q = q) (hqe : q ≠ []) (hqr : q ≠ ['/']) :
    findMatches (removeEntity fs q) [] ['/'] = [r0] := by
  have h0 : r0 ∈ findMatches fs [] ['/'] := by
    rw [hrm]; exact List.mem_singleton_self _
  have hr0key := (List.mem_filter.mp h0).2
  simp only [decide_eq_true_eq] at hr0key
  simp only [removeEntity, findMatches, hqn]
  rw [List.filter_comm]
  have hrm2 : List.filter (fun e => decide (e.path = [] ∧ e.name = ['/'])) fs.entities
      = [r0] := by
    simpa [findMatches] using hrm
  rw [hrm2]
  have hk1 : ¬(r0.path = (splitPath q).1 ∧ r0.name = (splitPath q).2) := by
    intro hcon
    apply hqr
    rw [← hqn]
    apply splitPath_root_key
    rw [Prod.ext_iff]
    exact ⟨hcon.1 ▸ hr0key.1, hcon.2 ▸ hr0key.2⟩
  have hk2 : ¬(r0.path = q) := by
    rw [hr0key.1]
    exact fun hcon => hqe hcon.symm
  have hk3 : ¬((q ++ ['/']).isPrefixOf r0.path = true) := by
    rw [hr0key.1]
    simp [List.isPrefixOf_iff_prefix]
  simp [hk1, hk2, hk3]
  exact ⟨not_and_or.mp hk1, by rw [hr0key.1]; simp⟩

end MockFsM

namespace MockFsM

open MockHttp (Str str)

theorem moveEntity_keeps_root (fs : MockFs) (oldP newP : Str) (r0 : Entity) (fs2 : MockFs)
    (hrm : findMatches fs [] ['/'] = [r0])
    (hon : normalizePath oldP = oldP) (hoe : oldP ≠ []) (hor : oldP ≠ ['/'])
    (hnn : normalizePath newP = newP) (hne : newP ≠ []) (hnr : newP ≠ ['/'])
    (hmv : moveEntity fs oldP newP = .ok fs2) :
    findMatches fs2 [] ['/'] = [r0] := by
  have hnotrootO : ¬(splitPath oldP = ([], ['/'])) := by
    intro hcon
    exact hor (hon ▸ splitPath_root_key oldP hcon)
  have hnotrootN : ¬(splitPath newP = ([], ['/'])) := by
    intro hcon
    exact hnr (hnn ▸ splitPath_root_key newP hcon)
  simp only [moveEntity, hon, hnn] at hmv
  cases hex : existsSync fs (splitPath newP).1 with
  | error err =>
    rw [hex] at hmv
    simp [Bind.bind, Except.bind] at hmv
  | ok b =>
    rw [hex] at hmv
    cases b with
    | false =>
      simp [Bind.bind, Except.bind] at hmv
    | true =>
      simp only [Bind.bind, Except.bind, not_true, if_false, Except.ok.injEq] at hmv
      subst hmv
      simp only [findMatches, List.map_map]
      set f1 : Entity → Entity := fun e =>
        if e.path = (splitPath oldP).1 ∧ e.name = (splitPath oldP).2 then
          { e with path := (splitPath newP).1, name := (splitPath newP).2 } else e with hf1
      set f2 : Entity → Entity := fun e =>
        if e.path = oldP then { e with path := newP } else e with hf2
      set f3 : Entity → Entity := fun e =>
        if (oldP ++ ['/']).isPrefixOf e.path then
          { e with path := newP ++ e.path.drop oldP.length } else e with hf3
      have hrm2 : List.filter (fun e => decide (e.path = [] ∧ e.name = ['/'])) fs.entities
          = [r0] := by
        simpa [findMatches] using hrm
      have s1 : ∀ x : Entity, ¬(x.path = [] ∧ x.name = ['/']) →
          ¬((f1 x).path = [] ∧ (f1 x).name = ['/']) := by
        intro x hx
        simp only [hf1]
        by_cases h : x.path = (splitPath oldP).1 ∧ x.name = (splitPath oldP).2
        · rw [if_pos h]
          dsimp
          intro hcon
          exact hnotrootN (by rw [Prod.ext_iff]; exact ⟨hcon.1, hcon.2⟩)
        · rw [if_neg h]
          exact hx
      have s2 : ∀ x : Entity, ¬(x.path = [] ∧ x.name = ['/']) →
          ¬((f2 x).path = [] ∧ (f2 x).name = ['/']) := by
        intro x hx
        simp only [hf2]
        by_cases h : x.path = oldP
        · rw [if_pos h]
          dsimp
          intro hcon
          exact hne hcon.1
        · rw [if_neg h]
          exact hx
      have s3 : ∀ x : Entity, ¬(x.path = [] ∧ x.name = ['/']) →
          ¬((f3 x).path = [] ∧ (f3 x).name = ['/']) := by
        intro x hx
        simp only [hf3]
        by_cases h : (oldP ++ ['/']).isPrefixOf x.path = true
        · rw [if_pos h]
          dsimp
          intro hcon
          exact hne (List.append_eq_nil.mp hcon.1).1
        · rw [if_neg h]
          exact hx
      have hfix : ∀ x : Entity, (x.path = [] ∧ x.name = ['/']) → f3 (f2 (f1 x)) = x := by
        intro x hx
        have h1 : ¬(x.path = (splitPath oldP).1 ∧ x.name = (splitPath oldP).2) := by
          intro hcon
          apply hnotrootO
          rw [Prod.ext_iff]
          exact ⟨hcon.1 ▸ hx.1, hcon.2 ▸ hx.2⟩
        have h2 : ¬(x.path = oldP) := by
          rw [hx.1]
          exact fun hcon => hoe hcon.symm
        have h3 : ¬((oldP ++ ['/']).isPrefixOf x.path = true) := by
          rw [hx.1]
          simp [List.isPrefixOf_iff_prefix]
        simp only [hf1, hf2, hf3, if_neg h1, if_neg h2, if_neg h3]
      have hpres : ∀ x : Entity, ¬(x.path = [] ∧ x.name = ['/']) →
          ¬((f3 (f2 (f1 x))).path = [] ∧ (f3 (f2 (f1 x))).name = ['/']) :=
        fun x hx => s3 _ (s2 _ (s1 x hx))
      rw [List.filter_map]
      have hcong : List.filter
          ((fun e : Entity => decide (e.path = [] ∧ e.name = ['/'])) ∘ (f3 ∘ f2 ∘ f1))
          fs.entities =
          List.filter (fun e : Entity => decide (e.path = [] ∧ e.name = ['/']))
          fs.entities := by
        refine List.filter_congr ?_
        intro x hx
        simp only [Function.comp_apply]
        by_cases hroot : x.path = [] ∧ x.name = ['/']
        · simp only [hfix x hroot]
        · rw [decide_eq_false (hpres x hroot), decide_eq_false hroot]
      rw [hcong, hrm2]
      have h0 : r0 ∈ findMatches fs [] ['/'] := by
        rw [hrm]; exact List.mem_singleton_self _
      have hr0key := (List.mem_filter.mp h0).2
      simp only [decide_eq_true_eq] at hr0key
      simp [hfix r0 hr0key]

end MockFsM

namespace MockFsM

open MockHttp (Str str)

/-- **C9** (amended): the root directory exists in the initial state, and
`removePath`, `rmdirSync`, `unlinkSync` and `renameSync` preserve the root
entry whenever the removed or moved (normalized) full path is neither empty
nor the root path itself. -/
theorem root_preserved_by_nonroot_ops (fs : MockFs) (r0 : Entity)
    (hrm : findMatches fs [] ['/'] = [r0]) :
    existsSync initFs (str "/") = .ok true ∧
    (∀ p, normalizePath p = p → p ≠ [] → p ≠ ['/'] →
      existsSync (removePath fs p) (str "/") = .ok true) ∧
    (∀ p d, getDirectoryByPath fs p = .ok d →
      normalizePath d.fullPath = d.fullPath → d.fullPath ≠ [] → d.fullPath ≠ ['/'] →
      rmdirSync fs p = .ok (removeEntity fs d.fullPath) ∧
        existsSync (removeEntity fs d.fullPath) (str "/") = .ok true) ∧
    (∀ p d, getFileByPath fs p = .ok d →
      normalizePath d.fullPath = d.fullPath → d.fullPath ≠ [] → d.fullPath ≠ ['/'] →
      unlinkSync fs p = .ok (removeEntity fs d.fullPath) ∧
        existsSync (removeEntity fs d.fullPath) (str "/") = .ok true) ∧
    (∀ oldArg newP s0 fs2, getEntityByPath fs oldArg = .ok (some s0) →
      renameSync fs oldArg newP = .ok fs2 →
      normalizePath s0.fullPath = s0.fullPath → s0.fullPath ≠ [] → s0.fullPath ≠ ['/'] →
      normalizePath newP = newP → newP ≠ [] → newP ≠ ['/'] →
      existsSync fs2 (str "/") = .ok true) := by
  have hq : splitPath (str "/") = ([], ['/']) := by decide
  refine ⟨by decide, ?_, ?_, ?_, ?_⟩
  · intro p h1 h2 h3
    exact existsSync_of_one _ (str "/") [] ['/'] r0 hq
      (removeEntity_keeps_root fs p r0 hrm h1 h2 h3)
  · intro p d h hn1 hn2 hn3
    have hstep : rmdirSync fs p = .ok (removeEntity fs d.fullPath) := by
      simp [rmdirSync, h, Bind.bind, Except.bind]
    exact ⟨hstep, existsSync_of_one _ (str "/") [] ['/'] r0 hq
      (removeEntity_keeps_root fs d.fullPath r0 hrm hn1 hn2 hn3)⟩
  · intro p d h hn1 hn2 hn3
    have hstep : unlinkSync fs p = .ok (removeEntity fs d.fullPath) := by
      simp [unlinkSync, h, Bind.bind, Except.bind]
    exact ⟨hstep, existsSync_of_one _ (str "/") [] ['/'] r0 hq
      (removeEntity_keeps_root fs d.fullPath r0 hrm hn1 hn2 hn3)⟩
  · intro oldArg newP s0 fs2 hsrc hren hs1 hs2 hs3 hn1 hn2 hn3
    simp only [renameSync, hsrc, Bind.bind, Except.bind] at hren
    cases hex2 : existsSync fs newP with
    | error err =>
      rw [hex2] at hren
      cases hren
    | ok b =>
      rw [hex2] at hren
      cases b with
      | true =>
        simp only [if_pos rfl] at hren
        have hroot1 : findMatches (removePath fs newP) [] ['/'] = [r0] :=
          removeEntity_keeps_root fs newP r0 hrm hn1 hn2 hn3
        exact existsSync_of_one _ (str "/") [] ['/'] r0 hq
          (moveEntity_keeps_root (removePath fs newP) s0.fullPath newP r0 fs2 hroot1
            hs1 hs2 hs3 hn1 hn2 hn3 hren)
      | false =>
        simp only [if_neg (by simp : ¬(false = true))] at hren
        exact existsSync_of_one _ (str "/") [] ['/'] r0 hq
          (moveEntity_keeps_root fs s0.fullPath newP r0 fs2 hrm
            hs1 hs2 hs3 hn1 hn2 hn3 hren)

end MockFsM

namespace MockFsM

open MockHttp (Str str)

/-- `resetFileSystem()` followed by `addFile('/d/f.txt', {}, 'hi')`. -/
def fs9 : MockFs := addFileD initFs (str "/d/f.txt") (str "hi")

theorem root_preserved_by_nonroot_ops_witness :
    existsSync initFs (str "/") = .ok true ∧
    existsSync (removePath fs9 (str "/d/f.txt")) (str "/") = .ok true ∧
    (∃ fsA, rmdirSync fs9 (str "/d") = .ok fsA ∧ existsSync fsA (str "/") = .ok true) ∧
    (∃ fsU, unlinkSync fs9 (str "/d/f.txt") = .ok fsU ∧
      existsSync fsU (str "/") = .ok true) ∧
    (∃ fsB, renameSync fs9 (str "/d/f.txt") (str "/g.txt") = .ok fsB ∧
      existsSync fsB (str "/") = .ok true) := by
  obtain ⟨w0, w1, w2, w3, w4⟩ :=
    root_preserved_by_nonroot_ops fs9 ⟨1, [], ['/'], ⟨0, true⟩, []⟩ (by decide)
  refine ⟨w0, w1 (str "/d/f.txt") (by decide) (by decide) (by decide), ?_, ?_, ?_⟩
  · have h := w2 (str "/d") ⟨2, ['/'], ['d'], ⟨0, true⟩, []⟩
      (by decide) (by decide) (by decide) (by decide)
    exact ⟨_, h.1, h.2⟩
  · have h := w3 (str "/d/f.txt") ⟨3, str "/d", str "f.txt", ⟨2, false⟩, str "hi"⟩
      (by decide) (by decide) (by decide) (by decide)
    exact ⟨_, h.1, h.2⟩
  · have hok : (renameSync fs9 (str "/d/f.txt") (str "/g.txt")).isOk = true := by decide
    cases hres : renameSync fs9 (str "/d/f.txt") (str "/g.txt") with
    | error e =>
      rw [hres] at hok
      simp [Except.isOk, Except.toBool] at hok
    | ok fsB =>
      exact ⟨fsB, rfl, w4 (str "/d/f.txt") (str "/g.txt")
        ⟨3, str "/d", str "f.txt", ⟨2, false⟩, str "hi"⟩ fsB (by decide) hres
        (by decide) (by decide) (by decide) (by decide) (by decide) (by decide)⟩

end MockFsM

namespace MockFsM

open MockHttp (Str str)

end MockFsM
